import Mathlib

/-!
Verification model of `hospital_neo4j_etl/src/hospital_bulk_csv_write.py`.

The Python script bulk-loads six CSV files into a Neo4j property graph:
it first creates one `id`-uniqueness constraint per node label, then
MERGEs one node per CSV row (with every property inside the merge
pattern), then MERGEs six kinds of relationships, matching both
endpoints by their `id` property.  The whole function body is wrapped in
`@retry(tries=100, delay=10)`, opens a Neo4j driver at the top and calls
`driver.close()` on its final line (with no `try`/`finally`).

The graph store itself is an external dependency of the repository, so
the Cypher constructs the script sends to it are modelled here by
executable Lean definitions following their documented semantics:
 * `MERGE (n:L {k1: v1, ...})` with a `null` value in the pattern raises
   an error ("cannot merge using null property value"); otherwise it
   matches a node carrying the label whose listed properties all equal
   the given values, and creates a node only when no match exists; a
   create that would duplicate a uniqueness-constrained `id` raises a
   constraint-violation error;
 * `MATCH (n:L {id: v})` with `v = null` (or no node with that id)
   matches nothing, producing zero result rows, silently;
 * `toInteger` / `toFloat` applied to an uncoercible string yield
   `null`;
 * `ON CREATE SET p = null` stores no property;
 * `CREATE CONSTRAINT IF NOT EXISTS` is a no-op when the constraint
   already exists, and fails when existing data violates it.
Floating-point numbers are never computed with by the script, so a
float value is represented by its (coercible) source text.

The `retry` decorator (PyPI package `retry`) catches every `Exception`
by default; `tries`/`delay` are its attempt ceiling and fixed pause.
-/

namespace HospitalETL

/-- Decimal-digit string to a natural number; `none` unless the string is
one or more digits (the fragment of Cypher `toInteger` exercised here). -/
def parseDigits (cs : List Char) : Option Nat :=
  if cs.isEmpty then none
  else if cs.all Char.isDigit then
    some (cs.foldl (fun a c => a * 10 + (c.toNat - 48)) 0)
  else none

/-- Cypher `toInteger` on a string: optional sign followed by digits;
`none` models the `null` returned on an uncoercible value. -/
def toIntegerStr (s : String) : Option Int :=
  match s.data with
  | '-' :: rest => (parseDigits rest).map (fun n => -(n : Int))
  | cs => (parseDigits cs).map (fun n => (n : Int))

/-- Digits with an optional single fractional part. -/
def isFloatCore (cs : List Char) : Bool :=
  let ds := cs.takeWhile Char.isDigit
  match cs.dropWhile Char.isDigit with
  | [] => !ds.isEmpty
  | '.' :: frac => !ds.isEmpty && !frac.isEmpty && frac.all Char.isDigit
  | _ => false

/-- Whether Cypher `toFloat` can coerce the string (optional sign, digits,
optional fractional part); otherwise `toFloat` yields `null`. -/
def isFloatStr (s : String) : Bool :=
  match s.data with
  | '-' :: rest => isFloatCore rest
  | cs => isFloatCore cs

/-- A Cypher value as used by the script: integers, floats (kept as their
coercible source text, never computed with), strings, and `null`. -/
inductive Val where
  | VInt (i : Int)
  | VFloat (text : String)
  | VStr (s : String)
  | VNull
deriving DecidableEq

/-- `toInteger($param)` on a string parameter. -/
def toIntV (s : String) : Val :=
  match toIntegerStr s with
  | some i => Val.VInt i
  | none => Val.VNull

/-- `toFloat($param)` on a string parameter. -/
def toFloatV (s : String) : Val :=
  if isFloatStr s then Val.VFloat s else Val.VNull

/-- The six node labels of the ontology. -/
inductive Label where
  | Hospital | Payer | Physician | Patient | Visit | Review
deriving DecidableEq

/-- The six relationship types of the ontology. -/
inductive RelType where
  | AT | WRITES | TREATS | COVERED_BY | HAS | EMPLOYS
deriving DecidableEq

/-- First value stored under a property key, if any. -/
def getProp : List (String × Val) → String → Option Val
  | [], _ => none
  | (k, v) :: rest, key => if k = key then some v else getProp rest key

/-- Whether some pattern value is `null` (which makes `MERGE` fail). -/
def hasNull (pat : List (String × Val)) : Bool :=
  pat.any (fun kv => kv.2 == Val.VNull)

/-- A node satisfies a merge pattern when every listed property equals the
pattern value (the node may carry further properties). -/
def propsMatch (pat : List (String × Val)) (nprops : List (String × Val)) : Bool :=
  pat.all (fun kv => getProp nprops kv.1 == some kv.2)

/-- Keys of a property list are pairwise distinct. -/
def nodupKeys : List (String × Val) → Bool
  | [] => true
  | (k, _) :: rest => !(rest.any (fun kv => kv.1 == k)) && nodupKeys rest

/-- A graph node: internal identity, label, properties. -/
structure Node where
  nid : Nat
  label : Label
  props : List (String × Val)
deriving DecidableEq

/-- A directed typed edge between two internal node identities. -/
structure Edge where
  src : Nat
  dst : Nat
  typ : RelType
  props : List (String × Val)
deriving DecidableEq

/-- The graph store: a fresh-identity counter, nodes, edges, and the set
of labels carrying an `id`-uniqueness constraint. -/
structure Store where
  nextId : Nat
  nodes : List Node
  edges : List Edge
  constraints : List Label
deriving DecidableEq

def emptyStore : Store := ⟨0, [], [], []⟩

/-- Errors the store can raise for the statements the script issues. -/
inductive LoadError where
  | nullMergeProp (l : Label)
  | constraintViolation (l : Label) (idv : Val)
  | constraintCreateFailed (l : Label)
deriving DecidableEq

/-- Append a freshly created node. -/
def addNode (s : Store) (l : Label) (pat : List (String × Val)) : Store :=
  { s with nextId := s.nextId + 1, nodes := s.nodes ++ [⟨s.nextId, l, pat⟩] }

/-- Cypher `MERGE (n:l pat)`: fail on a `null` pattern value; otherwise a
matching node satisfies the statement unchanged; otherwise create, unless
the create would duplicate a uniqueness-constrained `id`. -/
def mergeNode (s : Store) (l : Label) (pat : List (String × Val)) : Except LoadError Store :=
  if hasNull pat then .error (.nullMergeProp l)
  else if s.nodes.any (fun n => n.label == l && propsMatch pat n.props) then .ok s
  else
    match getProp pat "id" with
    | some idv =>
        if s.constraints.contains l &&
            s.nodes.any (fun n => n.label == l && getProp n.props "id" == some idv) then
          .error (.constraintViolation l idv)
        else .ok (addNode s l pat)
    | none => .ok (addNode s l pat)

/-- Two distinct nodes of the label share an `id` value. -/
def uniqViolated (s : Store) (l : Label) : Bool :=
  s.nodes.any (fun n => n.label == l && (getProp n.props "id").isSome &&
    s.nodes.any (fun m => m.label == l && !(m.nid == n.nid) &&
      getProp m.props "id" == getProp n.props "id"))

/-- The `_set_uniqueness_constraints` transaction function:
`CREATE CONSTRAINT IF NOT EXISTS FOR (n:l) REQUIRE n.id IS UNIQUE`. -/
def set_uniqueness_constraints (s : Store) (l : Label) : Except LoadError Store :=
  if s.constraints.contains l then .ok s
  else if uniqViolated s l then .error (.constraintCreateFailed l)
  else .ok { s with constraints := s.constraints ++ [l] }

/-- `MATCH (n:l {id: idv})`: all nodes of the label whose `id` property
equals the value; a `null` value matches nothing. -/
def matchNodes (s : Store) (l : Label) (idv : Val) : List Node :=
  if idv == Val.VNull then []
  else s.nodes.filter (fun n => n.label == l && getProp n.props "id" == some idv)

/-- Cartesian product of the internal identities of two match results
(the result rows of two consecutive `MATCH` clauses). -/
def crossPairs : List Node → List Node → List (Nat × Nat)
  | [], _ => []
  | a :: as, bs => bs.map (fun b => (a.nid, b.nid)) ++ crossPairs as bs

/-- One relationship-loading statement: endpoint labels and id values,
edge type, and the `ON CREATE SET` property list. -/
structure RelSpec where
  srcLabel : Label
  srcId : Val
  dstLabel : Label
  dstId : Val
  typ : RelType
  onCreate : List (String × Val)
deriving DecidableEq

/-- Result rows of the two `MATCH` clauses of a relationship statement. -/
def matchPairs (s : Store) (d : RelSpec) : List (Nat × Nat) :=
  crossPairs (matchNodes s d.srcLabel d.srcId) (matchNodes s d.dstLabel d.dstId)

/-- Whether an edge with the given endpoints and type exists. -/
def edgeExists (es : List Edge) (a b : Nat) (t : RelType) : Bool :=
  es.any (fun e => e.src == a && e.dst == b && e.typ == t)

/-- `SET p = null` stores nothing: drop `null` values before storing. -/
def dropNull (l : List (String × Val)) : List (String × Val) :=
  l.filter (fun kv => !(kv.2 == Val.VNull))

/-- `MERGE (a)-[:t]->(b)` for one matched endpoint pair: create the edge,
with the non-null `ON CREATE SET` properties, unless one of this type
already exists between the ordered pair. -/
def addEdgeIfAbsent (t : RelType) (oc : List (String × Val)) (st : Store) (p : Nat × Nat) :
    Store :=
  if edgeExists st.edges p.1 p.2 t then st
  else { st with edges := st.edges ++ [⟨p.1, p.2, t, dropNull oc⟩] }

/-- `MATCH ... MATCH ... MERGE (a)-[:T]->(b) [ON CREATE SET ...]` for one
source row: for every result row of the two matches, create the edge
unless one already exists between that ordered pair; an empty match set
silently does nothing.  This statement can never fail. -/
def relMerge (s : Store) (d : RelSpec) : Store :=
  (matchPairs s d).foldl (addEdgeIfAbsent d.typ d.onCreate) s

/-! Source rows.  Each structure lists exactly the columns the script
reads from the corresponding CSV file, as raw strings. -/

structure HospitalRow where
  hospital_id : String
  hospital_name : String
  hospital_state : String
deriving DecidableEq

structure PayerRow where
  payer_id : String
  payer_name : String
deriving DecidableEq

structure PhysicianRow where
  physician_id : String
  physician_name : String
  physician_dob : String
  physician_grad_year : String
  medical_school : String
  salary : String
deriving DecidableEq

structure PatientRow where
  patient_id : String
  patient_name : String
  patient_sex : String
  patient_dob : String
  patient_blood_type : String
deriving DecidableEq

structure VisitRow where
  visit_id : String
  room_number : String
  admission_type : String
  date_of_admission : String
  test_results : String
  visit_status : String
  chief_complaint : String
  treatment_description : String
  primary_diagnosis : String
  discharge_date : String
  hospital_id : String
  physician_id : String
  patient_id : String
  payer_id : String
  billing_amount : String
deriving DecidableEq

structure ReviewRow where
  review_id : String
  review : String
  patient_name : String
  physician_name : String
  hospital_name : String
  visit_id : String
deriving DecidableEq

/-- The six CSV files handed to one run. -/
structure Inputs where
  hospitals : List HospitalRow
  payers : List PayerRow
  physicians : List PhysicianRow
  patients : List PatientRow
  visits : List VisitRow
  reviews : List ReviewRow
deriving DecidableEq

/-- Merge pattern of the Hospital node statement. -/
def hospitalProps (r : HospitalRow) : List (String × Val) :=
  [("id", toIntV r.hospital_id), ("name", Val.VStr r.hospital_name),
   ("state_name", Val.VStr r.hospital_state)]

/-- Merge pattern of the Payer node statement. -/
def payerProps (r : PayerRow) : List (String × Val) :=
  [("id", toIntV r.payer_id), ("name", Val.VStr r.payer_name)]

/-- Merge pattern of the Physician node statement. -/
def physicianProps (r : PhysicianRow) : List (String × Val) :=
  [("id", toIntV r.physician_id), ("name", Val.VStr r.physician_name),
   ("dob", Val.VStr r.physician_dob), ("grad_year", Val.VStr r.physician_grad_year),
   ("school", Val.VStr r.medical_school), ("salary", toFloatV r.salary)]

/-- Merge pattern of the Patient node statement. -/
def patientProps (r : PatientRow) : List (String × Val) :=
  [("id", toIntV r.patient_id), ("name", Val.VStr r.patient_name),
   ("sex", Val.VStr r.patient_sex), ("dob", Val.VStr r.patient_dob),
   ("blood_type", Val.VStr r.patient_blood_type)]

/-- Merge pattern of the Visit node statement. -/
def visitProps (r : VisitRow) : List (String × Val) :=
  [("id", toIntV r.visit_id), ("room_number", toIntV r.room_number),
   ("admission_type", Val.VStr r.admission_type),
   ("admission_date", Val.VStr r.date_of_admission),
   ("test_results", Val.VStr r.test_results), ("status", Val.VStr r.visit_status),
   ("chief_complaint", Val.VStr r.chief_complaint),
   ("treatment_description", Val.VStr r.treatment_description),
   ("diagnosis", Val.VStr r.primary_diagnosis),
   ("discharge_date", Val.VStr r.discharge_date)]

/-- Merge pattern of the Review node statement. -/
def reviewProps (r : ReviewRow) : List (String × Val) :=
  [("id", toIntV r.review_id), ("text", Val.VStr r.review),
   ("patient_name", Val.VStr r.patient_name),
   ("physician_name", Val.VStr r.physician_name),
   ("hospital_name", Val.VStr r.hospital_name)]

/-- `AT` statement: `(v:Visit)-[:AT]->(h:Hospital)` from a visits row. -/
def atSpec (r : VisitRow) : RelSpec :=
  ⟨Label.Visit, toIntV r.visit_id, Label.Hospital, toIntV r.hospital_id, RelType.AT, []⟩

/-- `WRITES` statement: `(v:Visit)-[:WRITES]->(r:Review)` from a reviews row. -/
def writesSpec (r : ReviewRow) : RelSpec :=
  ⟨Label.Visit, toIntV r.visit_id, Label.Review, toIntV r.review_id, RelType.WRITES, []⟩

/-- `TREATS` statement: `(p:Physician)-[:TREATS]->(v:Visit)` from a visits row. -/
def treatsSpec (r : VisitRow) : RelSpec :=
  ⟨Label.Physician, toIntV r.physician_id, Label.Visit, toIntV r.visit_id, RelType.TREATS, []⟩

/-- `COVERED_BY` statement: `(v:Visit)-[cb:COVERED_BY]->(p:Payer)` with
`ON CREATE SET cb.service_date = $service_date, cb.billing_amount =
toFloat($billing_amount)`, where the script passes the visit row's
`discharge_date` column as `$service_date`. -/
def coveredBySpec (r : VisitRow) : RelSpec :=
  ⟨Label.Visit, toIntV r.visit_id, Label.Payer, toIntV r.payer_id, RelType.COVERED_BY,
   [("service_date", Val.VStr r.discharge_date),
    ("billing_amount", toFloatV r.billing_amount)]⟩

/-- `HAS` statement: `(p:Patient)-[:HAS]->(v:Visit)` from a visits row. -/
def hasSpec (r : VisitRow) : RelSpec :=
  ⟨Label.Patient, toIntV r.patient_id, Label.Visit, toIntV r.visit_id, RelType.HAS, []⟩

/-- `EMPLOYS` statement: `(h:Hospital)-[:EMPLOYS]->(p:Physician)` from a
visits row. -/
def employsSpec (r : VisitRow) : RelSpec :=
  ⟨Label.Hospital, toIntV r.hospital_id, Label.Physician, toIntV r.physician_id,
   RelType.EMPLOYS, []⟩

/-- Sequential statement execution where a raised exception aborts. -/
def exBind (x : Except LoadError Store) (f : Store → Except LoadError Store) :
    Except LoadError Store :=
  match x with
  | .error e => .error e
  | .ok s => f s

/-- A row loop over fallible statements: the first exception aborts the run. -/
def foldE {α : Type} (f : Store → α → Except LoadError Store) :
    Store → List α → Except LoadError Store
  | s, [] => .ok s
  | s, x :: xs =>
      match f s x with
      | .error e => .error e
      | .ok t => foldE f t xs

/-- A row loop over infallible statements. -/
def foldS {α : Type} (f : Store → α → Store) : Store → List α → Store
  | s, [] => s
  | s, x :: xs => foldS f (f s x) xs

/-- The `NODES` list of the script. -/
def NODES : List Label :=
  [Label.Hospital, Label.Payer, Label.Physician, Label.Patient, Label.Visit, Label.Review]

/-- Constraint loop: one uniqueness constraint per label in `NODES`. -/
def runConstraints (s : Store) : Except LoadError Store :=
  foldE set_uniqueness_constraints s NODES

/-- A node-loading loop: one `MERGE` per source row, pattern built by `g`. -/
def nodePhase {α : Type} (l : Label) (g : α → List (String × Val)) (s : Store)
    (xs : List α) : Except LoadError Store :=
  foldE (fun st r => mergeNode st l (g r)) s xs

/-- A relationship-loading loop: one `MATCH`/`MATCH`/`MERGE` statement per
source row, statement built by `g`. -/
def relPhase {α : Type} (g : α → RelSpec) (s : Store) (xs : List α) : Store :=
  foldS (fun st r => relMerge st (g r)) s xs

def loadHospitals (inp : Inputs) (s : Store) : Except LoadError Store :=
  nodePhase Label.Hospital hospitalProps s inp.hospitals

def loadPayers (inp : Inputs) (s : Store) : Except LoadError Store :=
  nodePhase Label.Payer payerProps s inp.payers

def loadPhysicians (inp : Inputs) (s : Store) : Except LoadError Store :=
  nodePhase Label.Physician physicianProps s inp.physicians

def loadPatients (inp : Inputs) (s : Store) : Except LoadError Store :=
  nodePhase Label.Patient patientProps s inp.patients

def loadVisits (inp : Inputs) (s : Store) : Except LoadError Store :=
  nodePhase Label.Visit visitProps s inp.visits

def loadReviews (inp : Inputs) (s : Store) : Except LoadError Store :=
  nodePhase Label.Review reviewProps s inp.reviews

def loadAT (inp : Inputs) (s : Store) : Store :=
  relPhase atSpec s inp.visits

def loadWRITES (inp : Inputs) (s : Store) : Store :=
  relPhase writesSpec s inp.reviews

def loadTREATS (inp : Inputs) (s : Store) : Store :=
  relPhase treatsSpec s inp.visits

def loadCOVERED_BY (inp : Inputs) (s : Store) : Store :=
  relPhase coveredBySpec s inp.visits

def loadHAS (inp : Inputs) (s : Store) : Store :=
  relPhase hasSpec s inp.visits

def loadEMPLOYS (inp : Inputs) (s : Store) : Store :=
  relPhase employsSpec s inp.visits

/-- The six relationship loops, in source order (lines 114-180). -/
def loadRels (inp : Inputs) (s : Store) : Store :=
  loadEMPLOYS inp (loadHAS inp (loadCOVERED_BY inp
    (loadTREATS inp (loadWRITES inp (loadAT inp s)))))

/-- The body of `load_hospital_graph_from_csv`, between driver acquisition
and `driver.close()`: constraints, then the six node loops, then the six
relationship loops, each loop aborting the run on a raised exception. -/
def load (inp : Inputs) (s : Store) : Except LoadError Store :=
  exBind (runConstraints s) (fun s =>
  exBind (loadHospitals inp s) (fun s =>
  exBind (loadPayers inp s) (fun s =>
  exBind (loadPhysicians inp s) (fun s =>
  exBind (loadPatients inp s) (fun s =>
  exBind (loadVisits inp s) (fun s =>
  exBind (loadReviews inp s) (fun s =>
  .ok (loadRels inp s))))))))

/-- Driver lifecycle events of one attempt. -/
inductive DriverEvent where
  | acquire
  | close
deriving DecidableEq

/-- One attempt of `load_hospital_graph_from_csv`: the driver is acquired
at the top (line 41); `driver.close()` (line 182) is the last statement
of the function and only runs when no exception was raised, since the
body has no `try`/`finally`. -/
def runAttempt (inp : Inputs) (s : Store) : List DriverEvent × Except LoadError Store :=
  match load inp s with
  | .ok t => ([DriverEvent.acquire, DriverEvent.close], .ok t)
  | .error e => ([DriverEvent.acquire], .error e)

/-- The `retry` decorator: run attempt `attempt` with `n` further retries
allowed; on any error it retries while budget remains (it catches every
exception, `exceptions=Exception` being the package default), and
returns the last error when the budget is exhausted. -/
def retryGo {α : Type} (f : Nat → Except LoadError α) : Nat → Nat → Except LoadError α
  | attempt, 0 => f attempt
  | attempt, n + 1 =>
      match f attempt with
      | .ok a => .ok a
      | .error _ => retryGo f (attempt + 1) n

/-- `@retry(tries=100, delay=10) def load_hospital_graph_from_csv()`:
up to 100 attempts of the whole run (99 retries after the first).
`stores n` is the store state the (n+1)-st attempt runs against (the
store persists and may change between attempts); the fixed 10-second
delay has no observable effect in this model. -/
def load_hospital_graph_from_csv (stores : Nat → Store) (inp : Inputs) :
    Except LoadError Store :=
  retryGo (fun n => (runAttempt inp (stores n)).2) 0 99

/-- The step boundaries the script logs: one constraint declaration per
label, one node-loading loop per label, one relationship-loading loop
per relationship type. -/
inductive Step where
  | constraint (l : Label)
  | nodeLoad (l : Label)
  | relLoad (t : RelType)
deriving DecidableEq

/-- Endpoint labels (source, target) of each relationship type, as used
by the corresponding `MATCH` clauses. -/
def relEndpoints : RelType → Label × Label
  | .AT => (Label.Visit, Label.Hospital)
  | .WRITES => (Label.Visit, Label.Review)
  | .TREATS => (Label.Physician, Label.Visit)
  | .COVERED_BY => (Label.Visit, Label.Payer)
  | .HAS => (Label.Patient, Label.Visit)
  | .EMPLOYS => (Label.Hospital, Label.Physician)

/-- Ordering check over a step trace: no constraint step once node or
relationship loading has begun, no node-loading step once relationship
loading has begun, and every relationship step comes after node-loading
steps for both of its endpoint labels. -/
def chkOrder (loaded : List Label) (nodeSeen relSeen : Bool) : List Step → Bool
  | [] => true
  | Step.constraint _ :: rest => !nodeSeen && !relSeen && chkOrder loaded nodeSeen relSeen rest
  | Step.nodeLoad l :: rest => !relSeen && chkOrder (l :: loaded) true relSeen rest
  | Step.relLoad t :: rest =>
      loaded.contains (relEndpoints t).1 && loaded.contains (relEndpoints t).2 &&
        chkOrder loaded nodeSeen true rest

/-- A step trace respects the load-ordering contract. -/
def isOrdered (tr : List Step) : Bool := chkOrder [] false false tr

/-- The eighteen steps of the script body, in source order, each paired
with the statement loop it performs. -/
def phases (inp : Inputs) : List (Step × (Store → Except LoadError Store)) :=
  [(Step.constraint Label.Hospital, fun s => set_uniqueness_constraints s Label.Hospital),
   (Step.constraint Label.Payer, fun s => set_uniqueness_constraints s Label.Payer),
   (Step.constraint Label.Physician, fun s => set_uniqueness_constraints s Label.Physician),
   (Step.constraint Label.Patient, fun s => set_uniqueness_constraints s Label.Patient),
   (Step.constraint Label.Visit, fun s => set_uniqueness_constraints s Label.Visit),
   (Step.constraint Label.Review, fun s => set_uniqueness_constraints s Label.Review),
   (Step.nodeLoad Label.Hospital, loadHospitals inp),
   (Step.nodeLoad Label.Payer, loadPayers inp),
   (Step.nodeLoad Label.Physician, loadPhysicians inp),
   (Step.nodeLoad Label.Patient, loadPatients inp),
   (Step.nodeLoad Label.Visit, loadVisits inp),
   (Step.nodeLoad Label.Review, loadReviews inp),
   (Step.relLoad RelType.AT, fun s => .ok (loadAT inp s)),
   (Step.relLoad RelType.WRITES, fun s => .ok (loadWRITES inp s)),
   (Step.relLoad RelType.TREATS, fun s => .ok (loadTREATS inp s)),
   (Step.relLoad RelType.COVERED_BY, fun s => .ok (loadCOVERED_BY inp s)),
   (Step.relLoad RelType.HAS, fun s => .ok (loadHAS inp s)),
   (Step.relLoad RelType.EMPLOYS, fun s => .ok (loadEMPLOYS inp s))]

/-- Run one step: a step that runs appends its boundary marker to the
trace; after an exception, no further step runs. -/
def stepRun (acc : List Step × Except LoadError Store)
    (p : Step × (Store → Except LoadError Store)) : List Step × Except LoadError Store :=
  match acc.2 with
  | .error e => (acc.1, .error e)
  | .ok s => (acc.1 ++ [p.1], p.2 s)

/-- The script body with its executed step boundaries recorded. -/
def loadRun (inp : Inputs) (s : Store) : List Step × Except LoadError Store :=
  (phases inp).foldl stepRun ([], .ok s)

/-- The full step order of a run that completes: the six constraint
declarations, the six node loops, the six relationship loops. -/
def fullTrace : List Step :=
  [Step.constraint Label.Hospital, Step.constraint Label.Payer,
   Step.constraint Label.Physician, Step.constraint Label.Patient,
   Step.constraint Label.Visit, Step.constraint Label.Review,
   Step.nodeLoad Label.Hospital, Step.nodeLoad Label.Payer,
   Step.nodeLoad Label.Physician, Step.nodeLoad Label.Patient,
   Step.nodeLoad Label.Visit, Step.nodeLoad Label.Review,
   Step.relLoad RelType.AT, Step.relLoad RelType.WRITES,
   Step.relLoad RelType.TREATS, Step.relLoad RelType.COVERED_BY,
   Step.relLoad RelType.HAS, Step.relLoad RelType.EMPLOYS]

instance exceptDecEq {ε α : Type} [DecidableEq ε] [DecidableEq α] :
    DecidableEq (Except ε α) := fun x y =>
  match x, y with
  | .ok u, .ok v =>
      if h : u = v then isTrue (by rw [h]) else isFalse (fun hc => by cases hc; exact h rfl)
  | .error u, .error v =>
      if h : u = v then isTrue (by rw [h]) else isFalse (fun hc => by cases hc; exact h rfl)
  | .ok _, .error _ => isFalse (fun hc => by cases hc)
  | .error _, .ok _ => isFalse (fun hc => by cases hc)

/-- A run result succeeded. -/
def exOk : Except LoadError Store → Bool
  | .ok _ => true
  | .error _ => false

/-- Edges of a successful result (empty for an error). -/
def okEdges : Except LoadError Store → List Edge
  | .ok s => s.edges
  | .error _ => []

/-- Store of a successful result (the empty store for an error). -/
def okStore : Except LoadError Store → Store
  | .ok s => s
  | .error _ => emptyStore

/-! Lemmas: store growth, property lists, and node merging. -/

/-- Store growth: nodes, edges and constraints are only ever added. -/
def StoreLe (s t : Store) : Prop :=
  (∀ n ∈ s.nodes, n ∈ t.nodes) ∧ (∀ e ∈ s.edges, e ∈ t.edges) ∧
    (∀ l ∈ s.constraints, l ∈ t.constraints)

theorem storeLe_refl (s : Store) : StoreLe s s :=
  ⟨fun _ h => h, fun _ h => h, fun _ h => h⟩

theorem storeLe_trans {s t u : Store} (h1 : StoreLe s t) (h2 : StoreLe t u) : StoreLe s u :=
  ⟨fun n hn => h2.1 n (h1.1 n hn), fun e he => h2.2.1 e (h1.2.1 e he),
   fun l hl => h2.2.2 l (h1.2.2 l hl)⟩

theorem getProp_cons_ne {k key : String} (v : Val) (rest : List (String × Val))
    (hne : k ≠ key) : getProp ((k, v) :: rest) key = getProp rest key := by
  simp [getProp, hne]

theorem propsMatch_self {pat : List (String × Val)} (hnd : nodupKeys pat = true) :
    propsMatch pat pat = true := by
  induction pat with
  | nil => rfl
  | cons kv rest ih =>
    obtain ⟨k, v⟩ := kv
    unfold nodupKeys at hnd
    rw [Bool.and_eq_true] at hnd
    have hnotin : ∀ kv2 ∈ rest, kv2.1 ≠ k := by
      intro kv2 hkv2
      have hfalse : rest.any (fun kv3 => kv3.1 == k) = false := by simpa using hnd.1
      rw [List.any_eq_false] at hfalse
      simpa using hfalse kv2 hkv2
    unfold propsMatch
    rw [List.all_eq_true]
    intro kv2 hkv2
    rcases List.mem_cons.mp hkv2 with rfl | hmem
    · simp [getProp]
    · rw [getProp_cons_ne v rest (fun he => hnotin kv2 hmem he.symm)]
      have := ih hnd.2
      rw [propsMatch, List.all_eq_true] at this
      exact this kv2 hmem

theorem mergeNode_not_null {s : Store} {l : Label} {pat : List (String × Val)} {t : Store}
    (h : mergeNode s l pat = .ok t) : hasNull pat = false := by
  unfold mergeNode at h
  split at h
  · exact Except.noConfusion h
  · rename_i hc
    simpa using hc

theorem mergeNode_ok_le {s : Store} {l : Label} {pat : List (String × Val)} {t : Store}
    (h : mergeNode s l pat = .ok t) : StoreLe s t := by
  unfold mergeNode at h
  split at h
  · exact Except.noConfusion h
  split at h
  · cases h
    exact storeLe_refl _
  · split at h
    · split at h
      · exact Except.noConfusion h
      · cases h
        exact ⟨fun n hn => List.mem_append_left _ hn, fun e he => he, fun c hc => hc⟩
    · cases h
      exact ⟨fun n hn => List.mem_append_left _ hn, fun e he => he, fun c hc => hc⟩

theorem mergeNode_frame {s : Store} {l : Label} {pat : List (String × Val)} {t : Store}
    (h : mergeNode s l pat = .ok t) :
    t.edges = s.edges ∧ t.constraints = s.constraints := by
  unfold mergeNode at h
  split at h
  · exact Except.noConfusion h
  split at h
  · cases h; exact ⟨rfl, rfl⟩
  · split at h
    · split at h
      · exact Except.noConfusion h
      · cases h; exact ⟨rfl, rfl⟩
    · cases h; exact ⟨rfl, rfl⟩

theorem mergeNode_ok_match {s : Store} {l : Label} {pat : List (String × Val)} {t : Store}
    (hnd : nodupKeys pat = true) (h : mergeNode s l pat = .ok t) :
    ∃ n ∈ t.nodes, n.label = l ∧ propsMatch pat n.props = true := by
  unfold mergeNode at h
  split at h
  · exact Except.noConfusion h
  split at h
  · rename_i hc
    cases h
    rw [List.any_eq_true] at hc
    obtain ⟨n, hn, hp⟩ := hc
    rw [Bool.and_eq_true] at hp
    exact ⟨n, hn, by simpa using hp.1, hp.2⟩
  · have hnew : (⟨s.nextId, l, pat⟩ : Node) ∈ (addNode s l pat).nodes := by
      unfold addNode
      exact List.mem_append_right _ (List.mem_singleton.mpr rfl)
    split at h
    · split at h
      · exact Except.noConfusion h
      · cases h
        exact ⟨_, hnew, rfl, propsMatch_self hnd⟩
    · cases h
      exact ⟨_, hnew, rfl, propsMatch_self hnd⟩

theorem mergeNode_stable {s : Store} {l : Label} {pat : List (String × Val)}
    (hnull : hasNull pat = false)
    (hex : ∃ n ∈ s.nodes, n.label = l ∧ propsMatch pat n.props = true) :
    mergeNode s l pat = .ok s := by
  obtain ⟨n, hn, hnl, hnm⟩ := hex
  have hany : (s.nodes.any fun m => m.label == l && propsMatch pat m.props) = true := by
    rw [List.any_eq_true]
    exact ⟨n, hn, by simp [hnl, hnm]⟩
  unfold mergeNode
  rw [hnull, hany]
  simp

theorem mergeNode_conflict {s : Store} {l : Label} {pat : List (String × Val)} {v : Val}
    (hnull : hasNull pat = false)
    (hid : getProp pat "id" = some v)
    (hcon : s.constraints.contains l = true)
    (hnomatch : ∀ n ∈ s.nodes, ¬(n.label = l ∧ propsMatch pat n.props = true))
    (hdup : ∃ n ∈ s.nodes, n.label = l ∧ getProp n.props "id" = some v) :
    mergeNode s l pat = .error (.constraintViolation l v) := by
  obtain ⟨n, hn, hnl, hni⟩ := hdup
  have hany : (s.nodes.any fun m => m.label == l && propsMatch pat m.props) = false := by
    rw [List.any_eq_false]
    intro m hm hcontra
    rw [Bool.and_eq_true] at hcontra
    exact hnomatch m hm ⟨by simpa using hcontra.1, hcontra.2⟩
  have hdupany : (s.nodes.any fun m => m.label == l && getProp m.props "id" == some v) = true := by
    rw [List.any_eq_true]
    exact ⟨n, hn, by simp [hnl, hni]⟩
  have hconmem : l ∈ s.constraints := by simpa using hcon
  unfold mergeNode
  simp [hnull, hany, hid, hcon, hdupany, hconmem]

/-! Lemmas: constraint declarations. -/

theorem set_ok_le {s : Store} {l : Label} {t : Store}
    (h : set_uniqueness_constraints s l = .ok t) : StoreLe s t := by
  unfold set_uniqueness_constraints at h
  split at h
  · cases h; exact storeLe_refl _
  · split at h
    · exact Except.noConfusion h
    · cases h
      exact ⟨fun n hn => hn, fun e he => he, fun c hc => List.mem_append_left _ hc⟩

theorem set_ok_frame {s : Store} {l : Label} {t : Store}
    (h : set_uniqueness_constraints s l = .ok t) :
    t.nodes = s.nodes ∧ t.edges = s.edges := by
  unfold set_uniqueness_constraints at h
  split at h
  · cases h; exact ⟨rfl, rfl⟩
  · split at h
    · exact Except.noConfusion h
    · cases h; exact ⟨rfl, rfl⟩

theorem set_ok_mem {s : Store} {l : Label} {t : Store}
    (h : set_uniqueness_constraints s l = .ok t) : l ∈ t.constraints := by
  unfold set_uniqueness_constraints at h
  split at h
  · rename_i hc
    cases h
    simpa using hc
  · split at h
    · exact Except.noConfusion h
    · cases h
      exact List.mem_append_right _ (List.mem_singleton.mpr rfl)

theorem set_stable {s : Store} {l : Label} (h : l ∈ s.constraints) :
    set_uniqueness_constraints s l = .ok s := by
  have hc : s.constraints.contains l = true := by simpa using h
  unfold set_uniqueness_constraints
  rw [hc]
  simp

/-! Lemmas: edge creation and relationship merging. -/

theorem addEdge_nodes (t : RelType) (oc : List (String × Val)) (s : Store) (p : Nat × Nat) :
    (addEdgeIfAbsent t oc s p).nodes = s.nodes := by
  unfold addEdgeIfAbsent; split <;> rfl

theorem addEdge_constraints (t : RelType) (oc : List (String × Val)) (s : Store)
    (p : Nat × Nat) : (addEdgeIfAbsent t oc s p).constraints = s.constraints := by
  unfold addEdgeIfAbsent; split <;> rfl

theorem addEdge_edges_subset (t : RelType) (oc : List (String × Val)) (s : Store)
    (p : Nat × Nat) : ∀ e ∈ s.edges, e ∈ (addEdgeIfAbsent t oc s p).edges := by
  unfold addEdgeIfAbsent
  split
  · exact fun e he => he
  · exact fun e he => List.mem_append_left _ he

theorem edgeExists_mono {es es2 : List Edge} (hsub : ∀ e ∈ es, e ∈ es2) {a b : Nat}
    {tt : RelType} (h : edgeExists es a b tt = true) : edgeExists es2 a b tt = true := by
  unfold edgeExists at h ⊢
  rw [List.any_eq_true] at h ⊢
  obtain ⟨e, he, hp⟩ := h
  exact ⟨e, hsub e he, hp⟩

theorem addEdge_covers (t : RelType) (oc : List (String × Val)) (s : Store) (p : Nat × Nat) :
    edgeExists (addEdgeIfAbsent t oc s p).edges p.1 p.2 t = true := by
  unfold addEdgeIfAbsent
  split
  · assumption
  · unfold edgeExists
    rw [List.any_eq_true]
    refine ⟨⟨p.1, p.2, t, dropNull oc⟩, List.mem_append_right _ (List.mem_singleton.mpr rfl), ?_⟩
    simp

theorem addFold_nodes (t : RelType) (oc : List (String × Val)) (ps : List (Nat × Nat))
    (s : Store) : (ps.foldl (addEdgeIfAbsent t oc) s).nodes = s.nodes := by
  induction ps generalizing s with
  | nil => rfl
  | cons q qs ih => rw [List.foldl_cons, ih, addEdge_nodes]

theorem addFold_constraints (t : RelType) (oc : List (String × Val)) (ps : List (Nat × Nat))
    (s : Store) : (ps.foldl (addEdgeIfAbsent t oc) s).constraints = s.constraints := by
  induction ps generalizing s with
  | nil => rfl
  | cons q qs ih => rw [List.foldl_cons, ih, addEdge_constraints]

theorem addFold_edges_subset (t : RelType) (oc : List (String × Val)) (ps : List (Nat × Nat))
    (s : Store) : ∀ e ∈ s.edges, e ∈ (ps.foldl (addEdgeIfAbsent t oc) s).edges := by
  induction ps generalizing s with
  | nil => exact fun e he => he
  | cons q qs ih =>
    intro e he
    rw [List.foldl_cons]
    exact ih _ e (addEdge_edges_subset t oc s q e he)

theorem addFold_covers (t : RelType) (oc : List (String × Val)) (ps : List (Nat × Nat))
    (s : Store) :
    ∀ p ∈ ps, edgeExists (ps.foldl (addEdgeIfAbsent t oc) s).edges p.1 p.2 t = true := by
  induction ps generalizing s with
  | nil => intro p hp; cases hp
  | cons q qs ih =>
    intro p hp
    rw [List.foldl_cons]
    rcases List.mem_cons.mp hp with rfl | hmem
    · exact edgeExists_mono (addFold_edges_subset t oc qs _) (addEdge_covers t oc s p)
    · exact ih _ p hmem

theorem addFold_fixed (t : RelType) (oc : List (String × Val)) (ps : List (Nat × Nat))
    (s : Store) (h : ∀ p ∈ ps, edgeExists s.edges p.1 p.2 t = true) :
    ps.foldl (addEdgeIfAbsent t oc) s = s := by
  induction ps with
  | nil => rfl
  | cons q qs ih =>
    rw [List.foldl_cons]
    have hq : addEdgeIfAbsent t oc s q = s := by
      unfold addEdgeIfAbsent
      rw [h q (List.mem_cons_self q qs)]
      simp
    rw [hq]
    exact ih (fun p hp => h p (List.mem_cons_of_mem q hp))

theorem addFold_new {t : RelType} {oc : List (String × Val)} {ps : List (Nat × Nat)}
    {s : Store} {e : Edge} (he : e ∈ (ps.foldl (addEdgeIfAbsent t oc) s).edges) :
    e ∈ s.edges ∨ ((e.src, e.dst) ∈ ps ∧ e.typ = t ∧ e.props = dropNull oc ∧
      edgeExists s.edges e.src e.dst e.typ = false) := by
  induction ps generalizing s with
  | nil => exact Or.inl he
  | cons q qs ih =>
    obtain ⟨qa, qb⟩ := q
    rw [List.foldl_cons] at he
    rcases ih he with hin | ⟨hp, ht, hpr, hne⟩
    · revert hin
      unfold addEdgeIfAbsent
      split
      · exact fun hin => Or.inl hin
      · rename_i hnex
        intro hin
        rcases List.mem_append.mp hin with h1 | h2
        · exact Or.inl h1
        · rw [List.mem_singleton] at h2
          subst h2
          right
          refine ⟨List.mem_cons_self _ _, rfl, rfl, ?_⟩
          simpa using hnex
    · right
      refine ⟨List.mem_cons_of_mem _ hp, ht, hpr, ?_⟩
      cases hcase : edgeExists s.edges e.src e.dst e.typ with
      | false => rfl
      | true =>
        have h2 := edgeExists_mono (addEdge_edges_subset t oc s (qa, qb)) hcase
        rw [h2] at hne
        exact Bool.noConfusion hne

/-- No two edges share source, target and type. -/
def EdgeUniq (s : Store) : Prop :=
  s.edges.Pairwise (fun a b => ¬(a.src = b.src ∧ a.dst = b.dst ∧ a.typ = b.typ))

theorem addEdge_uniq {t : RelType} {oc : List (String × Val)} {s : Store} (h : EdgeUniq s)
    (p : Nat × Nat) : EdgeUniq (addEdgeIfAbsent t oc s p) := by
  unfold EdgeUniq addEdgeIfAbsent
  split
  · exact h
  · rename_i hnex
    rw [List.pairwise_append]
    refine ⟨h, List.pairwise_singleton _ _, ?_⟩
    intro a ha b hb
    rw [List.mem_singleton] at hb
    subst hb
    intro hkey
    apply hnex
    unfold edgeExists
    rw [List.any_eq_true]
    exact ⟨a, ha, by simp [hkey.1, hkey.2.1, hkey.2.2]⟩

theorem addFold_uniq {t : RelType} {oc : List (String × Val)} (ps : List (Nat × Nat))
    {s : Store} (h : EdgeUniq s) : EdgeUniq (ps.foldl (addEdgeIfAbsent t oc) s) := by
  induction ps generalizing s with
  | nil => exact h
  | cons q qs ih =>
    rw [List.foldl_cons]
    exact ih (addEdge_uniq h q)

theorem relMerge_nodes (s : Store) (d : RelSpec) : (relMerge s d).nodes = s.nodes :=
  addFold_nodes d.typ d.onCreate (matchPairs s d) s

theorem relMerge_constraints (s : Store) (d : RelSpec) :
    (relMerge s d).constraints = s.constraints :=
  addFold_constraints d.typ d.onCreate (matchPairs s d) s

theorem relMerge_edges_subset (s : Store) (d : RelSpec) :
    ∀ e ∈ s.edges, e ∈ (relMerge s d).edges :=
  addFold_edges_subset d.typ d.onCreate (matchPairs s d) s

theorem relMerge_covers (s : Store) (d : RelSpec) :
    ∀ p ∈ matchPairs s d, edgeExists (relMerge s d).edges p.1 p.2 d.typ = true :=
  addFold_covers d.typ d.onCreate (matchPairs s d) s

theorem relMerge_fixed {s : Store} {d : RelSpec}
    (h : ∀ p ∈ matchPairs s d, edgeExists s.edges p.1 p.2 d.typ = true) :
    relMerge s d = s :=
  addFold_fixed d.typ d.onCreate (matchPairs s d) s h

theorem relMerge_new {s : Store} {d : RelSpec} {e : Edge} (he : e ∈ (relMerge s d).edges) :
    e ∈ s.edges ∨ ((e.src, e.dst) ∈ matchPairs s d ∧ e.typ = d.typ ∧
      e.props = dropNull d.onCreate ∧ edgeExists s.edges e.src e.dst e.typ = false) :=
  addFold_new he

theorem relMerge_uniq {s : Store} {d : RelSpec} (h : EdgeUniq s) : EdgeUniq (relMerge s d) :=
  addFold_uniq (matchPairs s d) h

theorem matchNodes_congr {s t : Store} (h : s.nodes = t.nodes) (l : Label) (v : Val) :
    matchNodes s l v = matchNodes t l v := by
  unfold matchNodes
  rw [h]

theorem matchPairs_congr {s t : Store} (h : s.nodes = t.nodes) (d : RelSpec) :
    matchPairs s d = matchPairs t d := by
  unfold matchPairs
  rw [matchNodes_congr h, matchNodes_congr h]

/-! Lemmas: relationship-loading loops. -/

theorem relPhase_nodes {α : Type} (g : α → RelSpec) (s : Store) (xs : List α) :
    (relPhase g s xs).nodes = s.nodes := by
  induction xs generalizing s with
  | nil => rfl
  | cons y ys ih =>
    show (relPhase g (relMerge s (g y)) ys).nodes = s.nodes
    rw [ih, relMerge_nodes]

theorem relPhase_constraints {α : Type} (g : α → RelSpec) (s : Store) (xs : List α) :
    (relPhase g s xs).constraints = s.constraints := by
  induction xs generalizing s with
  | nil => rfl
  | cons y ys ih =>
    show (relPhase g (relMerge s (g y)) ys).constraints = s.constraints
    rw [ih, relMerge_constraints]

theorem relPhase_edges_subset {α : Type} (g : α → RelSpec) (s : Store) (xs : List α) :
    ∀ e ∈ s.edges, e ∈ (relPhase g s xs).edges := by
  induction xs generalizing s with
  | nil => exact fun e he => he
  | cons y ys ih =>
    intro e he
    show e ∈ (relPhase g (relMerge s (g y)) ys).edges
    exact ih _ e (relMerge_edges_subset s (g y) e he)

theorem relPhase_le {α : Type} (g : α → RelSpec) (s : Store) (xs : List α) :
    StoreLe s (relPhase g s xs) :=
  ⟨fun n hn => by rw [relPhase_nodes]; exact hn,
   relPhase_edges_subset g s xs,
   fun l hl => by rw [relPhase_constraints]; exact hl⟩

theorem relPhase_covers {α : Type} (g : α → RelSpec) (s : Store) (xs : List α) :
    ∀ x ∈ xs, ∀ p ∈ matchPairs s (g x),
      edgeExists (relPhase g s xs).edges p.1 p.2 (g x).typ = true := by
  induction xs generalizing s with
  | nil => intro x hx; cases hx
  | cons y ys ih =>
    intro x hx p hp
    show edgeExists (relPhase g (relMerge s (g y)) ys).edges p.1 p.2 (g x).typ = true
    rcases List.mem_cons.mp hx with rfl | hmem
    · exact edgeExists_mono (relPhase_edges_subset g _ ys) (relMerge_covers s (g x) p hp)
    · have hp2 : p ∈ matchPairs (relMerge s (g y)) (g x) := by
        rw [matchPairs_congr (relMerge_nodes s (g y)) (g x)]
        exact hp
      exact ih _ x hmem p hp2

theorem relPhase_fixed {α : Type} {g : α → RelSpec} {s : Store} {xs : List α}
    (h : ∀ x ∈ xs, ∀ p ∈ matchPairs s (g x), edgeExists s.edges p.1 p.2 (g x).typ = true) :
    relPhase g s xs = s := by
  induction xs with
  | nil => rfl
  | cons y ys ih =>
    show relPhase g (relMerge s (g y)) ys = s
    rw [relMerge_fixed (h y (List.mem_cons_self y ys))]
    exact ih (fun x hx => h x (List.mem_cons_of_mem y hx))

theorem relPhase_new {α : Type} {g : α → RelSpec} {s : Store} {xs : List α} {e : Edge}
    (he : e ∈ (relPhase g s xs).edges) :
    e ∈ s.edges ∨ ∃ x ∈ xs, (e.src, e.dst) ∈ matchPairs s (g x) ∧ e.typ = (g x).typ ∧
      e.props = dropNull (g x).onCreate ∧ edgeExists s.edges e.src e.dst e.typ = false := by
  induction xs generalizing s with
  | nil => exact Or.inl he
  | cons y ys ih =>
    replace he : e ∈ (relPhase g (relMerge s (g y)) ys).edges := he
    rcases ih he with hin | ⟨x, hx, hp, ht, hpr, hne⟩
    · rcases relMerge_new hin with h1 | ⟨hp, ht, hpr, hne⟩
      · exact Or.inl h1
      · exact Or.inr ⟨y, List.mem_cons_self y ys, hp, ht, hpr, hne⟩
    · right
      refine ⟨x, List.mem_cons_of_mem y hx, ?_, ht, hpr, ?_⟩
      · rw [matchPairs_congr (relMerge_nodes s (g y)).symm (g x)]
        exact hp
      · cases hcase : edgeExists s.edges e.src e.dst e.typ with
        | false => rfl
        | true =>
          have h2 := edgeExists_mono (relMerge_edges_subset s (g y)) hcase
          rw [h2] at hne
          exact Bool.noConfusion hne

theorem relPhase_uniq {α : Type} (g : α → RelSpec) {s : Store} (xs : List α)
    (h : EdgeUniq s) : EdgeUniq (relPhase g s xs) := by
  induction xs generalizing s with
  | nil => exact h
  | cons y ys ih => exact ih (relMerge_uniq h)

/-- No new edge of an already-occupied (source, target, type) key is ever
added: any same-keyed edge of the result was already present. -/
theorem relPhase_no_dup {α : Type} {g : α → RelSpec} {s : Store} {xs : List α} {e e2 : Edge}
    (he : e ∈ s.edges) (he2 : e2 ∈ (relPhase g s xs).edges)
    (hk : e2.src = e.src ∧ e2.dst = e.dst ∧ e2.typ = e.typ) : e2 ∈ s.edges := by
  rcases relPhase_new he2 with hin | ⟨x, _, _, _, _, hne⟩
  · exact hin
  · exfalso
    have hx : edgeExists s.edges e2.src e2.dst e2.typ = true := by
      unfold edgeExists
      rw [List.any_eq_true]
      exact ⟨e, he, by simp [hk.1, hk.2.1, hk.2.2]⟩
    rw [hx] at hne
    exact Bool.noConfusion hne

/-! Lemmas: fallible row loops. -/

theorem foldE_rel {α : Type} {R : Store → Store → Prop}
    (hrefl : ∀ s, R s s)
    (htrans : ∀ {a b c : Store}, R a b → R b c → R a c)
    {f : Store → α → Except LoadError Store}
    (hstep : ∀ s x t, f s x = .ok t → R s t)
    {s : Store} {xs : List α} {t : Store} (h : foldE f s xs = .ok t) : R s t := by
  induction xs generalizing s with
  | nil =>
    replace h : Except.ok s = Except.ok t := h
    cases h
    exact hrefl t
  | cons y ys ih =>
    cases hfy : f s y with
    | error e =>
      unfold foldE at h
      rw [hfy] at h
      exact Except.noConfusion h
    | ok u =>
      unfold foldE at h
      rw [hfy] at h
      replace h : foldE f u ys = .ok t := h
      exact htrans (hstep s y u hfy) (ih h)

theorem foldE_all {α : Type} {P : α → Store → Prop}
    {f : Store → α → Except LoadError Store}
    (hstep : ∀ s x t, f s x = .ok t → P x t)
    (hmono : ∀ x s t, P x s → StoreLe s t → P x t)
    (hle : ∀ s x t, f s x = .ok t → StoreLe s t)
    {s : Store} {xs : List α} {t : Store} (h : foldE f s xs = .ok t) :
    ∀ x ∈ xs, P x t := by
  induction xs generalizing s with
  | nil => intro x hx; cases hx
  | cons y ys ih =>
    intro x hx
    cases hfy : f s y with
    | error e =>
      unfold foldE at h
      rw [hfy] at h
      exact Except.noConfusion h
    | ok u =>
      unfold foldE at h
      rw [hfy] at h
      replace h : foldE f u ys = .ok t := h
      rcases List.mem_cons.mp hx with rfl | hmem
      · exact hmono x u t (hstep s x u hfy) (foldE_rel storeLe_refl storeLe_trans hle h)
      · exact ih h x hmem

theorem foldE_fixed {α : Type} {f : Store → α → Except LoadError Store} {s : Store}
    {xs : List α} (h : ∀ x ∈ xs, f s x = .ok s) : foldE f s xs = .ok s := by
  induction xs with
  | nil => rfl
  | cons y ys ih =>
    unfold foldE
    rw [h y (List.mem_cons_self y ys)]
    exact ih (fun x hx => h x (List.mem_cons_of_mem y hx))

/-! Lemmas: node-loading loops. -/

theorem nodePhase_le {α : Type} {l : Label} {g : α → List (String × Val)} {s t : Store}
    {xs : List α} (h : nodePhase l g s xs = .ok t) : StoreLe s t :=
  foldE_rel storeLe_refl storeLe_trans (fun _ _ _ hx => mergeNode_ok_le hx) h

theorem nodePhase_frame {α : Type} {l : Label} {g : α → List (String × Val)} {s t : Store}
    {xs : List α} (h : nodePhase l g s xs = .ok t) :
    t.edges = s.edges ∧ t.constraints = s.constraints :=
  foldE_rel (R := fun a b => b.edges = a.edges ∧ b.constraints = a.constraints)
    (fun _ => ⟨rfl, rfl⟩) (fun h1 h2 => ⟨h2.1.trans h1.1, h2.2.trans h1.2⟩)
    (fun _ _ _ hx => mergeNode_frame hx) h

theorem nodePhase_all {α : Type} {l : Label} {g : α → List (String × Val)}
    (hnd : ∀ r, nodupKeys (g r) = true)
    {s t : Store} {xs : List α} (h : nodePhase l g s xs = .ok t) :
    ∀ r ∈ xs, hasNull (g r) = false ∧
      ∃ n ∈ t.nodes, n.label = l ∧ propsMatch (g r) n.props = true := by
  apply foldE_all (P := fun r st => hasNull (g r) = false ∧
      ∃ n ∈ st.nodes, n.label = l ∧ propsMatch (g r) n.props = true)
    ?_ ?_ ?_ h
  · intro s x t hx
    exact ⟨mergeNode_not_null hx, mergeNode_ok_match (hnd x) hx⟩
  · intro x s t hp hle
    obtain ⟨h1, n, hn, h2, h3⟩ := hp
    exact ⟨h1, n, hle.1 n hn, h2, h3⟩
  · intro s x t hx
    exact mergeNode_ok_le hx

theorem nodePhase_again {α : Type} {l : Label} {g : α → List (String × Val)}
    (hnd : ∀ r, nodupKeys (g r) = true)
    {s t : Store} {xs : List α} (h : nodePhase l g s xs = .ok t)
    {S : Store} (hle : StoreLe t S) : nodePhase l g S xs = .ok S := by
  have hall := nodePhase_all hnd h
  apply foldE_fixed
  intro r hr
  obtain ⟨hnull, n, hn, hnl, hnm⟩ := hall r hr
  exact mergeNode_stable hnull ⟨n, hle.1 n hn, hnl, hnm⟩

/-! Lemmas: the constraint loop. -/

theorem runConstraints_le {s t : Store} (h : runConstraints s = .ok t) : StoreLe s t :=
  foldE_rel storeLe_refl storeLe_trans (fun _ _ _ hx => set_ok_le hx) h

theorem runConstraints_frame {s t : Store} (h : runConstraints s = .ok t) :
    t.nodes = s.nodes ∧ t.edges = s.edges :=
  foldE_rel (R := fun a b => b.nodes = a.nodes ∧ b.edges = a.edges)
    (fun _ => ⟨rfl, rfl⟩) (fun h1 h2 => ⟨h2.1.trans h1.1, h2.2.trans h1.2⟩)
    (fun _ _ _ hx => set_ok_frame hx) h

theorem runConstraints_all {s t : Store} (h : runConstraints s = .ok t) :
    ∀ l ∈ NODES, l ∈ t.constraints :=
  foldE_all (P := fun l st => l ∈ st.constraints)
    (fun _ _ _ hx => set_ok_mem hx)
    (fun l _ _ hp hle => hle.2.2 l hp)
    (fun _ _ _ hx => set_ok_le hx) h

theorem runConstraints_again {s t : Store} (h : runConstraints s = .ok t)
    {S : Store} (hle : StoreLe t S) : runConstraints S = .ok S := by
  have hall := runConstraints_all h
  apply foldE_fixed
  intro l hl
  exact set_stable (hle.2.2 l (hall l hl))

/-! Lemmas: decomposing and recomposing the body. -/

theorem exBind_ok {x : Except LoadError Store} {f : Store → Except LoadError Store}
    {t : Store} : exBind x f = .ok t ↔ ∃ u, x = .ok u ∧ f u = .ok t := by
  cases x with
  | error e => simp [exBind]
  | ok u => simp [exBind]

theorem exBind_ok_left {f : Store → Except LoadError Store} (s : Store) :
    exBind (.ok s) f = f s := rfl

theorem load_decomp {inp : Inputs} {s S : Store} (h : load inp s = .ok S) :
    ∃ s1 s2 s3 s4 s5 s6 s7,
      runConstraints s = .ok s1 ∧ loadHospitals inp s1 = .ok s2 ∧
      loadPayers inp s2 = .ok s3 ∧ loadPhysicians inp s3 = .ok s4 ∧
      loadPatients inp s4 = .ok s5 ∧ loadVisits inp s5 = .ok s6 ∧
      loadReviews inp s6 = .ok s7 ∧ S = loadRels inp s7 := by
  unfold load at h
  rw [exBind_ok] at h; obtain ⟨s1, h1, h⟩ := h
  rw [exBind_ok] at h; obtain ⟨s2, h2, h⟩ := h
  rw [exBind_ok] at h; obtain ⟨s3, h3, h⟩ := h
  rw [exBind_ok] at h; obtain ⟨s4, h4, h⟩ := h
  rw [exBind_ok] at h; obtain ⟨s5, h5, h⟩ := h
  rw [exBind_ok] at h; obtain ⟨s6, h6, h⟩ := h
  rw [exBind_ok] at h; obtain ⟨s7, h7, h⟩ := h
  injection h with h
  exact ⟨s1, s2, s3, s4, s5, s6, s7, h1, h2, h3, h4, h5, h6, h7, h.symm⟩

/-- Re-running one relationship loop against a bigger store with the same
node set (which already holds all the edges the original run produced)
changes nothing. -/
theorem relPhase_saturated {α : Type} {g : α → RelSpec} {u : Store} {xs : List α}
    {S : Store} (hnodes : S.nodes = u.nodes)
    (hsub : ∀ e ∈ (relPhase g u xs).edges, e ∈ S.edges) :
    relPhase g S xs = S := by
  apply relPhase_fixed
  intro x hx p hp
  rw [matchPairs_congr hnodes (g x)] at hp
  exact edgeExists_mono hsub (relPhase_covers g u xs x hx p hp)

theorem nodupKeys_hospitalProps (r : HospitalRow) : nodupKeys (hospitalProps r) = true := rfl

theorem nodupKeys_payerProps (r : PayerRow) : nodupKeys (payerProps r) = true := rfl

theorem nodupKeys_physicianProps (r : PhysicianRow) : nodupKeys (physicianProps r) = true := rfl

theorem nodupKeys_patientProps (r : PatientRow) : nodupKeys (patientProps r) = true := rfl

theorem nodupKeys_visitProps (r : VisitRow) : nodupKeys (visitProps r) = true := rfl

theorem nodupKeys_reviewProps (r : ReviewRow) : nodupKeys (reviewProps r) = true := rfl

/-! Lemmas: the chained relationship loops. -/

theorem loadRels_nodes (inp : Inputs) (s : Store) : (loadRels inp s).nodes = s.nodes := by
  unfold loadRels loadEMPLOYS loadHAS loadCOVERED_BY loadTREATS loadWRITES loadAT
  rw [relPhase_nodes, relPhase_nodes, relPhase_nodes, relPhase_nodes, relPhase_nodes,
    relPhase_nodes]

theorem loadRels_constraints (inp : Inputs) (s : Store) :
    (loadRels inp s).constraints = s.constraints := by
  unfold loadRels loadEMPLOYS loadHAS loadCOVERED_BY loadTREATS loadWRITES loadAT
  rw [relPhase_constraints, relPhase_constraints, relPhase_constraints, relPhase_constraints,
    relPhase_constraints, relPhase_constraints]

theorem loadRels_edges_subset (inp : Inputs) (s : Store) :
    ∀ e ∈ s.edges, e ∈ (loadRels inp s).edges := by
  intro e he
  show e ∈ (relPhase employsSpec (relPhase hasSpec (relPhase coveredBySpec (relPhase
    treatsSpec (relPhase writesSpec (relPhase atSpec s inp.visits) inp.reviews)
    inp.visits) inp.visits) inp.visits) inp.visits).edges
  exact relPhase_edges_subset _ _ _ e (relPhase_edges_subset _ _ _ e
    (relPhase_edges_subset _ _ _ e (relPhase_edges_subset _ _ _ e
      (relPhase_edges_subset _ _ _ e (relPhase_edges_subset _ _ _ e he)))))

theorem loadRels_le (inp : Inputs) (s : Store) : StoreLe s (loadRels inp s) :=
  ⟨fun n hn => by rw [loadRels_nodes]; exact hn,
   loadRels_edges_subset inp s,
   fun l hl => by rw [loadRels_constraints]; exact hl⟩

theorem loadRels_uniq (inp : Inputs) {s : Store} (h : EdgeUniq s) :
    EdgeUniq (loadRels inp s) := by
  show EdgeUniq (relPhase employsSpec (relPhase hasSpec (relPhase coveredBySpec (relPhase
    treatsSpec (relPhase writesSpec (relPhase atSpec s inp.visits) inp.reviews)
    inp.visits) inp.visits) inp.visits) inp.visits)
  exact relPhase_uniq _ _ (relPhase_uniq _ _ (relPhase_uniq _ _ (relPhase_uniq _ _
    (relPhase_uniq _ _ (relPhase_uniq _ _ h)))))

theorem loadRels_again (inp : Inputs) (s7 : Store) {S : Store}
    (hS : S = loadRels inp s7) : loadRels inp S = S := by
  have hSn : S.nodes = s7.nodes := by rw [hS]; exact loadRels_nodes inp s7
  have sub1 : ∀ e ∈ (relPhase atSpec s7 inp.visits).edges, e ∈ S.edges := by
    intro e he
    rw [hS]
    show e ∈ (relPhase employsSpec (relPhase hasSpec (relPhase coveredBySpec (relPhase
      treatsSpec (relPhase writesSpec (relPhase atSpec s7 inp.visits) inp.reviews)
      inp.visits) inp.visits) inp.visits) inp.visits).edges
    exact relPhase_edges_subset _ _ _ e (relPhase_edges_subset _ _ _ e
      (relPhase_edges_subset _ _ _ e (relPhase_edges_subset _ _ _ e
        (relPhase_edges_subset _ _ _ e he))))
  have sub2 : ∀ e ∈ (relPhase writesSpec (relPhase atSpec s7 inp.visits)
      inp.reviews).edges, e ∈ S.edges := by
    intro e he
    rw [hS]
    show e ∈ (relPhase employsSpec (relPhase hasSpec (relPhase coveredBySpec (relPhase
      treatsSpec (relPhase writesSpec (relPhase atSpec s7 inp.visits) inp.reviews)
      inp.visits) inp.visits) inp.visits) inp.visits).edges
    exact relPhase_edges_subset _ _ _ e (relPhase_edges_subset _ _ _ e
      (relPhase_edges_subset _ _ _ e (relPhase_edges_subset _ _ _ e he)))
  have sub3 : ∀ e ∈ (relPhase treatsSpec (relPhase writesSpec (relPhase atSpec s7
      inp.visits) inp.reviews) inp.visits).edges, e ∈ S.edges := by
    intro e he
    rw [hS]
    show e ∈ (relPhase employsSpec (relPhase hasSpec (relPhase coveredBySpec (relPhase
      treatsSpec (relPhase writesSpec (relPhase atSpec s7 inp.visits) inp.reviews)
      inp.visits) inp.visits) inp.visits) inp.visits).edges
    exact relPhase_edges_subset _ _ _ e (relPhase_edges_subset _ _ _ e
      (relPhase_edges_subset _ _ _ e he))
  have sub4 : ∀ e ∈ (relPhase coveredBySpec (relPhase treatsSpec (relPhase writesSpec
      (relPhase atSpec s7 inp.visits) inp.reviews) inp.visits) inp.visits).edges,
      e ∈ S.edges := by
    intro e he
    rw [hS]
    show e ∈ (relPhase employsSpec (relPhase hasSpec (relPhase coveredBySpec (relPhase
      treatsSpec (relPhase writesSpec (relPhase atSpec s7 inp.visits) inp.reviews)
      inp.visits) inp.visits) inp.visits) inp.visits).edges
    exact relPhase_edges_subset _ _ _ e (relPhase_edges_subset _ _ _ e he)
  have sub5 : ∀ e ∈ (relPhase hasSpec (relPhase coveredBySpec (relPhase treatsSpec
      (relPhase writesSpec (relPhase atSpec s7 inp.visits) inp.reviews) inp.visits)
      inp.visits) inp.visits).edges, e ∈ S.edges := by
    intro e he
    rw [hS]
    show e ∈ (relPhase employsSpec (relPhase hasSpec (relPhase coveredBySpec (relPhase
      treatsSpec (relPhase writesSpec (relPhase atSpec s7 inp.visits) inp.reviews)
      inp.visits) inp.visits) inp.visits) inp.visits).edges
    exact relPhase_edges_subset _ _ _ e he
  have sub6 : ∀ e ∈ (relPhase employsSpec (relPhase hasSpec (relPhase coveredBySpec
      (relPhase treatsSpec (relPhase writesSpec (relPhase atSpec s7 inp.visits)
      inp.reviews) inp.visits) inp.visits) inp.visits) inp.visits).edges,
      e ∈ S.edges := by
    intro e he
    rw [hS]
    exact he
  have hAT : relPhase atSpec S inp.visits = S :=
    relPhase_saturated hSn sub1
  have hWR : relPhase writesSpec S inp.reviews = S :=
    relPhase_saturated (hSn.trans (relPhase_nodes atSpec s7 inp.visits).symm) sub2
  have hTR : relPhase treatsSpec S inp.visits = S :=
    relPhase_saturated (hSn.trans ((relPhase_nodes writesSpec _ inp.reviews).trans
      (relPhase_nodes atSpec s7 inp.visits)).symm) sub3
  have hCB : relPhase coveredBySpec S inp.visits = S :=
    relPhase_saturated (hSn.trans ((relPhase_nodes treatsSpec _ inp.visits).trans
      ((relPhase_nodes writesSpec _ inp.reviews).trans
        (relPhase_nodes atSpec s7 inp.visits))).symm) sub4
  have hHA : relPhase hasSpec S inp.visits = S :=
    relPhase_saturated (hSn.trans ((relPhase_nodes coveredBySpec _ inp.visits).trans
      ((relPhase_nodes treatsSpec _ inp.visits).trans
        ((relPhase_nodes writesSpec _ inp.reviews).trans
          (relPhase_nodes atSpec s7 inp.visits)))).symm) sub5
  have hEM : relPhase employsSpec S inp.visits = S :=
    relPhase_saturated (hSn.trans ((relPhase_nodes hasSpec _ inp.visits).trans
      ((relPhase_nodes coveredBySpec _ inp.visits).trans
        ((relPhase_nodes treatsSpec _ inp.visits).trans
          ((relPhase_nodes writesSpec _ inp.reviews).trans
            (relPhase_nodes atSpec s7 inp.visits))))).symm) sub6
  show relPhase employsSpec (relPhase hasSpec (relPhase coveredBySpec (relPhase
    treatsSpec (relPhase writesSpec (relPhase atSpec S inp.visits) inp.reviews)
    inp.visits) inp.visits) inp.visits) inp.visits = S
  rw [hAT, hWR, hTR, hCB, hHA, hEM]

/-- C3: running the full load a second time against the store a
successful run produced succeeds and returns that store unchanged -- the
loader is idempotent, so two runs over identical inputs yield exactly
the nodes and edges of one run; moreover a run never introduces two
parallel edges of the same type between the same ordered node pair
(edge-key uniqueness is preserved). -/
theorem load_idempotent (inp : Inputs) (s S : Store) (h : load inp s = .ok S) :
    load inp S = .ok S ∧ (EdgeUniq s → EdgeUniq S) := by
  obtain ⟨s1, s2, s3, s4, s5, s6, s7, h1, h2, h3, h4, h5, h6, h7, hS⟩ := load_decomp h
  have le7S : StoreLe s7 S := by rw [hS]; exact loadRels_le inp s7
  have le6 : StoreLe s6 S := storeLe_trans (nodePhase_le h7) le7S
  have le5 : StoreLe s5 S := storeLe_trans (nodePhase_le h6) le6
  have le4 : StoreLe s4 S := storeLe_trans (nodePhase_le h5) le5
  have le3 : StoreLe s3 S := storeLe_trans (nodePhase_le h4) le4
  have le2 : StoreLe s2 S := storeLe_trans (nodePhase_le h3) le3
  have le1 : StoreLe s1 S := storeLe_trans (nodePhase_le h2) le2
  have hC : runConstraints S = .ok S := runConstraints_again h1 le1
  have hH : loadHospitals inp S = .ok S := nodePhase_again nodupKeys_hospitalProps h2 le2
  have hP : loadPayers inp S = .ok S := nodePhase_again nodupKeys_payerProps h3 le3
  have hPh : loadPhysicians inp S = .ok S := nodePhase_again nodupKeys_physicianProps h4 le4
  have hPa : loadPatients inp S = .ok S := nodePhase_again nodupKeys_patientProps h5 le5
  have hV : loadVisits inp S = .ok S := nodePhase_again nodupKeys_visitProps h6 le6
  have hR : loadReviews inp S = .ok S := nodePhase_again nodupKeys_reviewProps h7 le7S
  have hRels : loadRels inp S = S := loadRels_again inp s7 hS
  constructor
  · unfold load
    simp only [hC, exBind_ok_left, hH, hP, hPh, hPa, hV, hR, hRels]
  · intro hu
    have e1 : s1.edges = s.edges := (runConstraints_frame h1).2
    have e2 : s2.edges = s1.edges := (nodePhase_frame h2).1
    have e3 : s3.edges = s2.edges := (nodePhase_frame h3).1
    have e4 : s4.edges = s3.edges := (nodePhase_frame h4).1
    have e5 : s5.edges = s4.edges := (nodePhase_frame h5).1
    have e6 : s6.edges = s5.edges := (nodePhase_frame h6).1
    have e7 : s7.edges = s6.edges := (nodePhase_frame h7).1
    have hu7 : EdgeUniq s7 := by
      unfold EdgeUniq
      rw [e7, e6, e5, e4, e3, e2, e1]
      exact hu
    rw [hS]
    exact loadRels_uniq inp hu7

/-! Lemmas: where each edge of the final store comes from, and which edges
the final store is guaranteed to contain. -/

theorem loadRels_sub_at (inp : Inputs) (s7 : Store) :
    ∀ e ∈ (relPhase atSpec s7 inp.visits).edges, e ∈ (loadRels inp s7).edges := by
  intro e he
  show e ∈ (relPhase employsSpec (relPhase hasSpec (relPhase coveredBySpec (relPhase
    treatsSpec (relPhase writesSpec (relPhase atSpec s7 inp.visits) inp.reviews)
    inp.visits) inp.visits) inp.visits) inp.visits).edges
  exact relPhase_edges_subset _ _ _ e (relPhase_edges_subset _ _ _ e
    (relPhase_edges_subset _ _ _ e (relPhase_edges_subset _ _ _ e
      (relPhase_edges_subset _ _ _ e he))))

theorem loadRels_sub_writes (inp : Inputs) (s7 : Store) :
    ∀ e ∈ (relPhase writesSpec (relPhase atSpec s7 inp.visits) inp.reviews).edges,
      e ∈ (loadRels inp s7).edges := by
  intro e he
  show e ∈ (relPhase employsSpec (relPhase hasSpec (relPhase coveredBySpec (relPhase
    treatsSpec (relPhase writesSpec (relPhase atSpec s7 inp.visits) inp.reviews)
    inp.visits) inp.visits) inp.visits) inp.visits).edges
  exact relPhase_edges_subset _ _ _ e (relPhase_edges_subset _ _ _ e
    (relPhase_edges_subset _ _ _ e (relPhase_edges_subset _ _ _ e he)))

theorem loadRels_sub_treats (inp : Inputs) (s7 : Store) :
    ∀ e ∈ (relPhase treatsSpec (relPhase writesSpec (relPhase atSpec s7 inp.visits)
      inp.reviews) inp.visits).edges, e ∈ (loadRels inp s7).edges := by
  intro e he
  show e ∈ (relPhase employsSpec (relPhase hasSpec (relPhase coveredBySpec (relPhase
    treatsSpec (relPhase writesSpec (relPhase atSpec s7 inp.visits) inp.reviews)
    inp.visits) inp.visits) inp.visits) inp.visits).edges
  exact relPhase_edges_subset _ _ _ e (relPhase_edges_subset _ _ _ e
    (relPhase_edges_subset _ _ _ e he))

theorem loadRels_sub_coveredBy (inp : Inputs) (s7 : Store) :
    ∀ e ∈ (relPhase coveredBySpec (relPhase treatsSpec (relPhase writesSpec (relPhase
      atSpec s7 inp.visits) inp.reviews) inp.visits) inp.visits).edges,
      e ∈ (loadRels inp s7).edges := by
  intro e he
  show e ∈ (relPhase employsSpec (relPhase hasSpec (relPhase coveredBySpec (relPhase
    treatsSpec (relPhase writesSpec (relPhase atSpec s7 inp.visits) inp.reviews)
    inp.visits) inp.visits) inp.visits) inp.visits).edges
  exact relPhase_edges_subset _ _ _ e (relPhase_edges_subset _ _ _ e he)

theorem loadRels_sub_has (inp : Inputs) (s7 : Store) :
    ∀ e ∈ (relPhase hasSpec (relPhase coveredBySpec (relPhase treatsSpec (relPhase
      writesSpec (relPhase atSpec s7 inp.visits) inp.reviews) inp.visits) inp.visits)
      inp.visits).edges, e ∈ (loadRels inp s7).edges := by
  intro e he
  show e ∈ (relPhase employsSpec (relPhase hasSpec (relPhase coveredBySpec (relPhase
    treatsSpec (relPhase writesSpec (relPhase atSpec s7 inp.visits) inp.reviews)
    inp.visits) inp.visits) inp.visits) inp.visits).edges
  exact relPhase_edges_subset _ _ _ e he

/-- Node-set equality between the node-phase end state and each
relationship-phase entry state. -/
theorem relChain_nodes_at (inp : Inputs) (s7 : Store) :
    (relPhase atSpec s7 inp.visits).nodes = s7.nodes := relPhase_nodes _ _ _

theorem relChain_nodes_writes (inp : Inputs) (s7 : Store) :
    (relPhase writesSpec (relPhase atSpec s7 inp.visits) inp.reviews).nodes = s7.nodes :=
  (relPhase_nodes _ _ _).trans (relChain_nodes_at inp s7)

theorem relChain_nodes_treats (inp : Inputs) (s7 : Store) :
    (relPhase treatsSpec (relPhase writesSpec (relPhase atSpec s7 inp.visits)
      inp.reviews) inp.visits).nodes = s7.nodes :=
  (relPhase_nodes _ _ _).trans (relChain_nodes_writes inp s7)

theorem relChain_nodes_coveredBy (inp : Inputs) (s7 : Store) :
    (relPhase coveredBySpec (relPhase treatsSpec (relPhase writesSpec (relPhase atSpec
      s7 inp.visits) inp.reviews) inp.visits) inp.visits).nodes = s7.nodes :=
  (relPhase_nodes _ _ _).trans (relChain_nodes_treats inp s7)

theorem relChain_nodes_has (inp : Inputs) (s7 : Store) :
    (relPhase hasSpec (relPhase coveredBySpec (relPhase treatsSpec (relPhase writesSpec
      (relPhase atSpec s7 inp.visits) inp.reviews) inp.visits) inp.visits)
      inp.visits).nodes = s7.nodes :=
  (relPhase_nodes _ _ _).trans (relChain_nodes_coveredBy inp s7)

/-- Every run guarantees: whenever a source row's two `MATCH` clauses (as
evaluated over the final node set) produce a pair, the corresponding edge
is present in the final store.  `u` names the node-phase end state; its
edge set is the pre-run edge set. -/
theorem load_rel_covered {inp : Inputs} {s S : Store} (h : load inp s = .ok S) :
    ∃ u : Store, u.nodes = S.nodes ∧ u.edges = s.edges ∧
      (∀ r ∈ inp.visits, ∀ p ∈ matchPairs u (atSpec r),
        edgeExists S.edges p.1 p.2 RelType.AT = true) ∧
      (∀ r ∈ inp.reviews, ∀ p ∈ matchPairs u (writesSpec r),
        edgeExists S.edges p.1 p.2 RelType.WRITES = true) ∧
      (∀ r ∈ inp.visits, ∀ p ∈ matchPairs u (treatsSpec r),
        edgeExists S.edges p.1 p.2 RelType.TREATS = true) ∧
      (∀ r ∈ inp.visits, ∀ p ∈ matchPairs u (coveredBySpec r),
        edgeExists S.edges p.1 p.2 RelType.COVERED_BY = true) ∧
      (∀ r ∈ inp.visits, ∀ p ∈ matchPairs u (hasSpec r),
        edgeExists S.edges p.1 p.2 RelType.HAS = true) ∧
      (∀ r ∈ inp.visits, ∀ p ∈ matchPairs u (employsSpec r),
        edgeExists S.edges p.1 p.2 RelType.EMPLOYS = true) := by
  obtain ⟨s1, s2, s3, s4, s5, s6, s7, h1, h2, h3, h4, h5, h6, h7, hS⟩ := load_decomp h
  have he1 : s1.edges = s.edges := (runConstraints_frame h1).2
  have he2 : s2.edges = s1.edges := (nodePhase_frame h2).1
  have he3 : s3.edges = s2.edges := (nodePhase_frame h3).1
  have he4 : s4.edges = s3.edges := (nodePhase_frame h4).1
  have he5 : s5.edges = s4.edges := (nodePhase_frame h5).1
  have he6 : s6.edges = s5.edges := (nodePhase_frame h6).1
  have he7 : s7.edges = s6.edges := (nodePhase_frame h7).1
  refine ⟨s7, by rw [hS, loadRels_nodes],
    he7.trans (he6.trans (he5.trans (he4.trans (he3.trans (he2.trans he1))))), ?_, ?_, ?_, ?_, ?_, ?_⟩
  · intro r hr p hp
    rw [hS]
    exact edgeExists_mono (loadRels_sub_at inp s7) (relPhase_covers atSpec s7 inp.visits r hr p hp)
  · intro r hr p hp
    rw [hS]
    have hp2 : p ∈ matchPairs (relPhase atSpec s7 inp.visits) (writesSpec r) := by
      rw [matchPairs_congr (relChain_nodes_at inp s7) (writesSpec r)]
      exact hp
    exact edgeExists_mono (loadRels_sub_writes inp s7)
      (relPhase_covers writesSpec _ inp.reviews r hr p hp2)
  · intro r hr p hp
    rw [hS]
    have hp2 : p ∈ matchPairs (relPhase writesSpec (relPhase atSpec s7 inp.visits)
        inp.reviews) (treatsSpec r) := by
      rw [matchPairs_congr (relChain_nodes_writes inp s7) (treatsSpec r)]
      exact hp
    exact edgeExists_mono (loadRels_sub_treats inp s7)
      (relPhase_covers treatsSpec _ inp.visits r hr p hp2)
  · intro r hr p hp
    rw [hS]
    have hp2 : p ∈ matchPairs (relPhase treatsSpec (relPhase writesSpec (relPhase atSpec
        s7 inp.visits) inp.reviews) inp.visits) (coveredBySpec r) := by
      rw [matchPairs_congr (relChain_nodes_treats inp s7) (coveredBySpec r)]
      exact hp
    exact edgeExists_mono (loadRels_sub_coveredBy inp s7)
      (relPhase_covers coveredBySpec _ inp.visits r hr p hp2)
  · intro r hr p hp
    rw [hS]
    have hp2 : p ∈ matchPairs (relPhase coveredBySpec (relPhase treatsSpec (relPhase
        writesSpec (relPhase atSpec s7 inp.visits) inp.reviews) inp.visits) inp.visits)
        (hasSpec r) := by
      rw [matchPairs_congr (relChain_nodes_coveredBy inp s7) (hasSpec r)]
      exact hp
    exact edgeExists_mono (loadRels_sub_has inp s7)
      (relPhase_covers hasSpec _ inp.visits r hr p hp2)
  · intro r hr p hp
    rw [hS]
    have hp2 : p ∈ matchPairs (relPhase hasSpec (relPhase coveredBySpec (relPhase
        treatsSpec (relPhase writesSpec (relPhase atSpec s7 inp.visits) inp.reviews)
        inp.visits) inp.visits) inp.visits) (employsSpec r) := by
      rw [matchPairs_congr (relChain_nodes_has inp s7) (employsSpec r)]
      exact hp
    show edgeExists (relPhase employsSpec (relPhase hasSpec (relPhase coveredBySpec
      (relPhase treatsSpec (relPhase writesSpec (relPhase atSpec s7 inp.visits)
      inp.reviews) inp.visits) inp.visits) inp.visits) inp.visits).edges p.1 p.2
      RelType.EMPLOYS = true
    exact relPhase_covers employsSpec _ inp.visits r hr p hp2

theorem edgeExists_false_mono {es es2 : List Edge} (hsub : ∀ e ∈ es, e ∈ es2) {a b : Nat}
    {tt : RelType} (h : edgeExists es2 a b tt = false) : edgeExists es a b tt = false := by
  cases hc : edgeExists es a b tt with
  | false => rfl
  | true =>
    have h2 := edgeExists_mono hsub hc
    rw [h2] at h
    exact Bool.noConfusion h

/-- Every edge of the final store either pre-existed or was created by
exactly one of the six relationship loops, from one of its source rows,
between a pair its two `MATCH` clauses produced over the final node set;
a created edge had no same-keyed edge in the pre-run store.  `u` names
the node-phase end state. -/
theorem load_edge_origin {inp : Inputs} {s S : Store} (h : load inp s = .ok S) :
    ∃ u : Store, u.nodes = S.nodes ∧ u.edges = s.edges ∧
      ∀ e ∈ S.edges, e ∈ s.edges ∨
        (edgeExists s.edges e.src e.dst e.typ = false ∧
          ((∃ r ∈ inp.visits, (e.src, e.dst) ∈ matchPairs u (atSpec r) ∧
            e.typ = RelType.AT ∧ e.props = dropNull (atSpec r).onCreate) ∨
          (∃ r ∈ inp.reviews, (e.src, e.dst) ∈ matchPairs u (writesSpec r) ∧
            e.typ = RelType.WRITES ∧ e.props = dropNull (writesSpec r).onCreate) ∨
          (∃ r ∈ inp.visits, (e.src, e.dst) ∈ matchPairs u (treatsSpec r) ∧
            e.typ = RelType.TREATS ∧ e.props = dropNull (treatsSpec r).onCreate) ∨
          (∃ r ∈ inp.visits, (e.src, e.dst) ∈ matchPairs u (coveredBySpec r) ∧
            e.typ = RelType.COVERED_BY ∧ e.props = dropNull (coveredBySpec r).onCreate) ∨
          (∃ r ∈ inp.visits, (e.src, e.dst) ∈ matchPairs u (hasSpec r) ∧
            e.typ = RelType.HAS ∧ e.props = dropNull (hasSpec r).onCreate) ∨
          (∃ r ∈ inp.visits, (e.src, e.dst) ∈ matchPairs u (employsSpec r) ∧
            e.typ = RelType.EMPLOYS ∧ e.props = dropNull (employsSpec r).onCreate))) := by
  obtain ⟨s1, s2, s3, s4, s5, s6, s7, h1, h2, h3, h4, h5, h6, h7, hS⟩ := load_decomp h
  have he1 : s1.edges = s.edges := (runConstraints_frame h1).2
  have he2 : s2.edges = s1.edges := (nodePhase_frame h2).1
  have he3 : s3.edges = s2.edges := (nodePhase_frame h3).1
  have he4 : s4.edges = s3.edges := (nodePhase_frame h4).1
  have he5 : s5.edges = s4.edges := (nodePhase_frame h5).1
  have he6 : s6.edges = s5.edges := (nodePhase_frame h6).1
  have he7 : s7.edges = s6.edges := (nodePhase_frame h7).1
  have hse : s7.edges = s.edges :=
    he7.trans (he6.trans (he5.trans (he4.trans (he3.trans (he2.trans he1)))))
  have sub1 : ∀ x ∈ s7.edges, x ∈ (relPhase atSpec s7 inp.visits).edges :=
    relPhase_edges_subset _ _ _
  have sub2 : ∀ x ∈ s7.edges, x ∈ (relPhase writesSpec (relPhase atSpec s7 inp.visits)
      inp.reviews).edges :=
    fun x hx => relPhase_edges_subset _ _ _ x (sub1 x hx)
  have sub3 : ∀ x ∈ s7.edges, x ∈ (relPhase treatsSpec (relPhase writesSpec (relPhase
      atSpec s7 inp.visits) inp.reviews) inp.visits).edges :=
    fun x hx => relPhase_edges_subset _ _ _ x (sub2 x hx)
  have sub4 : ∀ x ∈ s7.edges, x ∈ (relPhase coveredBySpec (relPhase treatsSpec (relPhase
      writesSpec (relPhase atSpec s7 inp.visits) inp.reviews) inp.visits)
      inp.visits).edges :=
    fun x hx => relPhase_edges_subset _ _ _ x (sub3 x hx)
  have sub5 : ∀ x ∈ s7.edges, x ∈ (relPhase hasSpec (relPhase coveredBySpec (relPhase
      treatsSpec (relPhase writesSpec (relPhase atSpec s7 inp.visits) inp.reviews)
      inp.visits) inp.visits) inp.visits).edges :=
    fun x hx => relPhase_edges_subset _ _ _ x (sub4 x hx)
  refine ⟨s7, by rw [hS, loadRels_nodes], hse, ?_⟩
  intro e he
  rw [hS] at he
  replace he : e ∈ (relPhase employsSpec (relPhase hasSpec (relPhase coveredBySpec
    (relPhase treatsSpec (relPhase writesSpec (relPhase atSpec s7 inp.visits)
    inp.reviews) inp.visits) inp.visits) inp.visits) inp.visits).edges := he
  rcases relPhase_new he with he | ⟨r, hr, hp, ht, hpr, hne⟩
  rotate_left
  · refine Or.inr ⟨by rw [← hse]; exact edgeExists_false_mono sub5 hne,
      Or.inr (Or.inr (Or.inr (Or.inr (Or.inr ⟨r, hr, ?_, ht, hpr⟩))))⟩
    rw [matchPairs_congr (relChain_nodes_has inp s7) (employsSpec r)] at hp
    exact hp
  rcases relPhase_new he with he | ⟨r, hr, hp, ht, hpr, hne⟩
  rotate_left
  · refine Or.inr ⟨by rw [← hse]; exact edgeExists_false_mono sub4 hne,
      Or.inr (Or.inr (Or.inr (Or.inr (Or.inl ⟨r, hr, ?_, ht, hpr⟩))))⟩
    rw [matchPairs_congr (relChain_nodes_coveredBy inp s7) (hasSpec r)] at hp
    exact hp
  rcases relPhase_new he with he | ⟨r, hr, hp, ht, hpr, hne⟩
  rotate_left
  · refine Or.inr ⟨by rw [← hse]; exact edgeExists_false_mono sub3 hne,
      Or.inr (Or.inr (Or.inr (Or.inl ⟨r, hr, ?_, ht, hpr⟩)))⟩
    rw [matchPairs_congr (relChain_nodes_treats inp s7) (coveredBySpec r)] at hp
    exact hp
  rcases relPhase_new he with he | ⟨r, hr, hp, ht, hpr, hne⟩
  rotate_left
  · refine Or.inr ⟨by rw [← hse]; exact edgeExists_false_mono sub2 hne,
      Or.inr (Or.inr (Or.inl ⟨r, hr, ?_, ht, hpr⟩))⟩
    rw [matchPairs_congr (relChain_nodes_writes inp s7) (treatsSpec r)] at hp
    exact hp
  rcases relPhase_new he with he | ⟨r, hr, hp, ht, hpr, hne⟩
  rotate_left
  · refine Or.inr ⟨by rw [← hse]; exact edgeExists_false_mono sub1 hne,
      Or.inr (Or.inl ⟨r, hr, ?_, ht, hpr⟩)⟩
    rw [matchPairs_congr (relChain_nodes_at inp s7) (writesSpec r)] at hp
    exact hp
  rcases relPhase_new he with he | ⟨r, hr, hp, ht, hpr, hne⟩
  rotate_left
  · exact Or.inr ⟨by rw [← hse]; exact hne, Or.inl ⟨r, hr, hp, ht, hpr⟩⟩
  · left
    rw [← hse]
    exact he

/-! Lemmas: well-formedness of the node set (no null property values,
fresh and pairwise-distinct internal identities). -/

theorem addEdge_nextId (t : RelType) (oc : List (String × Val)) (s : Store) (p : Nat × Nat) :
    (addEdgeIfAbsent t oc s p).nextId = s.nextId := by
  unfold addEdgeIfAbsent; split <;> rfl

theorem addFold_nextId (t : RelType) (oc : List (String × Val)) (ps : List (Nat × Nat))
    (s : Store) : (ps.foldl (addEdgeIfAbsent t oc) s).nextId = s.nextId := by
  induction ps generalizing s with
  | nil => rfl
  | cons q qs ih => rw [List.foldl_cons, ih, addEdge_nextId]

theorem relPhase_nextId {α : Type} (g : α → RelSpec) (s : Store) (xs : List α) :
    (relPhase g s xs).nextId = s.nextId := by
  induction xs generalizing s with
  | nil => rfl
  | cons y ys ih =>
    show (relPhase g (relMerge s (g y)) ys).nextId = s.nextId
    rw [ih]
    exact addFold_nextId (g y).typ (g y).onCreate (matchPairs s (g y)) s

theorem loadRels_nextId (inp : Inputs) (s : Store) : (loadRels inp s).nextId = s.nextId := by
  unfold loadRels loadEMPLOYS loadHAS loadCOVERED_BY loadTREATS loadWRITES loadAT
  rw [relPhase_nextId, relPhase_nextId, relPhase_nextId, relPhase_nextId, relPhase_nextId,
    relPhase_nextId]

theorem set_ok_nextId {s : Store} {l : Label} {t : Store}
    (h : set_uniqueness_constraints s l = .ok t) : t.nextId = s.nextId := by
  unfold set_uniqueness_constraints at h
  split at h
  · cases h; rfl
  · split at h
    · exact Except.noConfusion h
    · cases h; rfl

theorem runConstraints_nodes_nextId {s t : Store} (h : runConstraints s = .ok t) :
    t.nodes = s.nodes ∧ t.nextId = s.nextId :=
  foldE_rel (R := fun a b => b.nodes = a.nodes ∧ b.nextId = a.nextId)
    (fun _ => ⟨rfl, rfl⟩) (fun h1 h2 => ⟨h2.1.trans h1.1, h2.2.trans h1.2⟩)
    (fun _ _ _ hx => ⟨(set_ok_frame hx).1, set_ok_nextId hx⟩) h

/-- Node-set well-formedness: no node carries a `null` property value,
every internal identity is below the freshness counter, and internal
identities are pairwise distinct. -/
def NodesWF (s : Store) : Prop :=
  (∀ n ∈ s.nodes, hasNull n.props = false ∧ n.nid < s.nextId) ∧
    s.nodes.Pairwise (fun a b => a.nid ≠ b.nid)

theorem nodesWF_congr {s t : Store} (hn : t.nodes = s.nodes) (hi : t.nextId = s.nextId)
    (h : NodesWF s) : NodesWF t := by
  unfold NodesWF
  rw [hn, hi]
  exact h

theorem nodesWF_empty : NodesWF emptyStore :=
  ⟨fun n hn => absurd hn (List.not_mem_nil n), List.Pairwise.nil⟩

theorem addNode_wf {s : Store} {l : Label} {pat : List (String × Val)}
    (hnull : hasNull pat = false) (hwf : NodesWF s) : NodesWF (addNode s l pat) := by
  constructor
  · intro n hn
    rcases List.mem_append.mp hn with ho | hnew
    · exact ⟨(hwf.1 n ho).1, Nat.lt_trans (hwf.1 n ho).2 (Nat.lt_succ_self _)⟩
    · rw [List.mem_singleton] at hnew
      subst hnew
      exact ⟨hnull, Nat.lt_succ_self _⟩
  · show List.Pairwise (fun a b => a.nid ≠ b.nid) (s.nodes ++ [⟨s.nextId, l, pat⟩])
    rw [List.pairwise_append]
    refine ⟨hwf.2, List.pairwise_singleton _ _, ?_⟩
    intro a ha b hb
    rw [List.mem_singleton] at hb
    subst hb
    exact Nat.ne_of_lt (hwf.1 a ha).2

theorem mergeNode_wf {s : Store} {l : Label} {pat : List (String × Val)} {t : Store}
    (h : mergeNode s l pat = .ok t) (hwf : NodesWF s) : NodesWF t := by
  have hnull := mergeNode_not_null h
  unfold mergeNode at h
  split at h
  · exact Except.noConfusion h
  split at h
  · cases h; exact hwf
  · split at h
    · split at h
      · exact Except.noConfusion h
      · cases h; exact addNode_wf hnull hwf
    · cases h; exact addNode_wf hnull hwf

theorem nodePhase_wf {α : Type} {l : Label} {g : α → List (String × Val)} {s t : Store}
    {xs : List α} (h : nodePhase l g s xs = .ok t) (hwf : NodesWF s) : NodesWF t :=
  foldE_rel (R := fun a b => NodesWF a → NodesWF b) (fun _ hw => hw)
    (fun h1 h2 hw => h2 (h1 hw)) (fun _ _ _ hx hw => mergeNode_wf hx hw) h hwf

theorem load_wf {inp : Inputs} {s S : Store} (h : load inp s = .ok S) (hwf : NodesWF s) :
    NodesWF S := by
  obtain ⟨s1, s2, s3, s4, s5, s6, s7, h1, h2, h3, h4, h5, h6, h7, hS⟩ := load_decomp h
  have wf1 : NodesWF s1 :=
    nodesWF_congr (runConstraints_nodes_nextId h1).1 (runConstraints_nodes_nextId h1).2 hwf
  have wf7 : NodesWF s7 :=
    nodePhase_wf h7 (nodePhase_wf h6 (nodePhase_wf h5 (nodePhase_wf h4
      (nodePhase_wf h3 (nodePhase_wf h2 wf1)))))
  rw [hS]
  exact nodesWF_congr (loadRels_nodes inp s7) (loadRels_nextId inp s7) wf7

theorem nid_inj {s : Store} (hwf : NodesWF s) {a b : Node} (ha : a ∈ s.nodes)
    (hb : b ∈ s.nodes) (h : a.nid = b.nid) : a = b := by
  by_contra hne
  exact hwf.2.forall (fun x y hxy => hxy.symm) ha hb hne h

/-! Lemmas: membership in match results. -/

theorem getProp_ne_null {k : String} {v : Val} :
    ∀ props : List (String × Val), hasNull props = false →
      getProp props k = some v → v ≠ Val.VNull := by
  intro props
  induction props with
  | nil => intro _ h; exact Option.noConfusion h
  | cons kv rest ih =>
    obtain ⟨k1, v1⟩ := kv
    intro hnn h
    have hnn2 : ∀ x ∈ (k1, v1) :: rest, ¬(x.2 == Val.VNull) = true := by
      rw [← List.any_eq_false]
      exact hnn
    unfold getProp at h
    split at h
    · cases h
      simpa using hnn2 (k1, v) (List.mem_cons_self _ _)
    · apply ih ?_ h
      rw [hasNull, List.any_eq_false]
      exact fun x hx => hnn2 x (List.mem_cons_of_mem _ hx)

theorem mem_matchNodes {s : Store} {l : Label} {v : Val} {n : Node} :
    n ∈ matchNodes s l v ↔
      n ∈ s.nodes ∧ n.label = l ∧ getProp n.props "id" = some v ∧ v ≠ Val.VNull := by
  unfold matchNodes
  by_cases hv : v = Val.VNull
  · subst hv
    simp
  · have hb : (v == Val.VNull) = false := by simpa using hv
    rw [hb]
    simp [List.mem_filter, hv, Bool.and_eq_true, and_assoc]

theorem mem_crossPairs : ∀ {as : List Node} {bs : List Node} {p : Nat × Nat},
    p ∈ crossPairs as bs ↔ ∃ a ∈ as, ∃ b ∈ bs, p = (a.nid, b.nid) := by
  intro as
  induction as with
  | nil => intro bs p; simp [crossPairs]
  | cons a as ih =>
    intro bs p
    unfold crossPairs
    rw [List.mem_append, ih]
    constructor
    · rintro (hm | ⟨x, hx, b, hb, rfl⟩)
      · rw [List.mem_map] at hm
        obtain ⟨b, hb, rfl⟩ := hm
        exact ⟨a, List.mem_cons_self _ _, b, hb, rfl⟩
      · exact ⟨x, List.mem_cons_of_mem _ hx, b, hb, rfl⟩
    · rintro ⟨x, hx, b, hb, rfl⟩
      rcases List.mem_cons.mp hx with rfl | hxs
      · exact Or.inl (List.mem_map.mpr ⟨b, hb, rfl⟩)
      · exact Or.inr ⟨x, hxs, b, hb, rfl⟩

theorem mem_matchPairs {s : Store} {d : RelSpec} {p : Nat × Nat} :
    p ∈ matchPairs s d ↔ ∃ a ∈ matchNodes s d.srcLabel d.srcId,
      ∃ b ∈ matchNodes s d.dstLabel d.dstId, p = (a.nid, b.nid) := by
  unfold matchPairs
  exact mem_crossPairs

theorem edgeExists_iff {es : List Edge} {a b : Nat} {t : RelType} :
    edgeExists es a b t = true ↔ ∃ e ∈ es, e.src = a ∧ e.dst = b ∧ e.typ = t := by
  unfold edgeExists
  rw [List.any_eq_true]
  constructor
  · rintro ⟨e, he, hp⟩
    rw [Bool.and_eq_true, Bool.and_eq_true] at hp
    exact ⟨e, he, by simpa using hp.1.1, by simpa using hp.1.2, by simpa using hp.2⟩
  · rintro ⟨e, he, h1, h2, h3⟩
    exact ⟨e, he, by simp [h1, h2, h3]⟩

/-! Lemmas: miscellaneous helpers for the claims. -/

theorem load_ok_le {inp : Inputs} {s S : Store} (h : load inp s = .ok S) : StoreLe s S := by
  obtain ⟨s1, s2, s3, s4, s5, s6, s7, h1, h2, h3, h4, h5, h6, h7, hS⟩ := load_decomp h
  have le7S : StoreLe s7 S := by rw [hS]; exact loadRels_le inp s7
  exact storeLe_trans (runConstraints_le h1) (storeLe_trans (nodePhase_le h2)
    (storeLe_trans (nodePhase_le h3) (storeLe_trans (nodePhase_le h4)
      (storeLe_trans (nodePhase_le h5) (storeLe_trans (nodePhase_le h6)
        (storeLe_trans (nodePhase_le h7) le7S))))))

theorem crossPairs_nil_right : ∀ as : List Node, crossPairs as [] = []
  | [] => rfl
  | a :: as => by
    unfold crossPairs
    rw [crossPairs_nil_right as]
    rfl

theorem getProp_dropNull_coveredBy (r : VisitRow) :
    getProp (dropNull (coveredBySpec r).onCreate) "service_date" =
      some (Val.VStr r.discharge_date) := by
  unfold coveredBySpec dropNull toFloatV
  cases hf : isFloatStr r.billing_amount <;> simp [getProp]

/-! Lemmas: the retry decorator. -/

theorem retryGo_ok {α : Type} {f : Nat → Except LoadError α} {attempt : Nat} {a : α}
    (h : f attempt = .ok a) : ∀ n : Nat, retryGo f attempt n = .ok a := by
  intro n
  cases n with
  | zero => exact h
  | succ m =>
    unfold retryGo
    rw [h]

theorem retryGo_skip {α : Type} (f : Nat → Except LoadError α) {attempt : Nat}
    {e : LoadError} (h : f attempt = .error e) (m : Nat) :
    retryGo f attempt (m + 1) = retryGo f (attempt + 1) m := by
  show (match f attempt with
    | .ok a => Except.ok a
    | .error _ => retryGo f (attempt + 1) m) = retryGo f (attempt + 1) m
  rw [h]

/-! Lemmas: the executed step trace. -/

theorem stepRun_err (ps : List (Step × (Store → Except LoadError Store)))
    (tr : List Step) (e : LoadError) :
    ps.foldl stepRun (tr, .error e) = (tr, .error e) := by
  induction ps with
  | nil => rfl
  | cons p ps ih => rw [List.foldl_cons]; exact ih

theorem stepRun_fold (ps : List (Step × (Store → Except LoadError Store))) :
    ∀ (tr : List Step) (r : Except LoadError Store),
      (∃ rest, (ps.foldl stepRun (tr, r)).1 ++ rest = tr ++ ps.map Prod.fst) ∧
        (exOk (ps.foldl stepRun (tr, r)).2 = true →
          (ps.foldl stepRun (tr, r)).1 = tr ++ ps.map Prod.fst) := by
  induction ps with
  | nil =>
    intro tr r
    exact ⟨⟨[], by simp⟩, fun _ => by simp⟩
  | cons p ps ih =>
    intro tr r
    cases r with
    | error e =>
      rw [List.foldl_cons]
      have hst : stepRun (tr, Except.error e) p = (tr, Except.error e) := rfl
      rw [hst, stepRun_err]
      constructor
      · exact ⟨p.1 :: ps.map Prod.fst, by simp⟩
      · intro hok
        exact absurd hok (by simp [exOk])
    | ok u =>
      rw [List.foldl_cons]
      have hst : stepRun (tr, Except.ok u) p = (tr ++ [p.1], p.2 u) := rfl
      rw [hst]
      obtain ⟨⟨rest, hrest⟩, hok⟩ := ih (tr ++ [p.1]) (p.2 u)
      constructor
      · exact ⟨rest, by rw [hrest]; simp⟩
      · intro h2
        rw [hok h2]
        simp

theorem fullTrace_inits_ordered :
    ∀ tr ∈ fullTrace.inits, isOrdered tr = true := by decide

/-! Concrete data used to exercise the claims. -/

/-- A visits row with the given key columns; the other columns are fixed
plausible strings. -/
def vrow (vid hid phid patid payid bill : String) : VisitRow :=
  ⟨vid, "1", "Emergency", "2023-01-01", "Normal", "DISCHARGED", "pain", "rest", "flu",
   "2023-01-05", hid, phid, patid, payid, bill⟩

/-- One consistent row per file, all referencing each other. -/
def inpFull : Inputs :=
  ⟨[⟨"1", "General", "CA"⟩], [⟨"5", "BlueCross"⟩],
   [⟨"7", "Dr Smith", "1980-02-02", "2005", "UCLA", "100000.5"⟩],
   [⟨"10", "Pat Doe", "F", "1990-03-03", "O+"⟩],
   [vrow "100" "1" "7" "10" "5" "300.5"],
   [⟨"200", "great care", "Pat Doe", "Dr Smith", "General", "100"⟩]⟩

/-- A single visits row whose endpoint nodes are never loaded (all other
files are empty). -/
def inpMissingEndpoints : Inputs :=
  ⟨[], [], [], [], [vrow "100" "99" "7" "10" "5" "300.5"], []⟩

/-- Two hospital rows sharing the id `1` with different names. -/
def inpDupHospital : Inputs :=
  ⟨[⟨"1", "General", "CA"⟩, ⟨"1", "Mercy", "CA"⟩], [], [], [], [], []⟩

/-- A payer plus a visits row whose billing_amount is not a number. -/
def inpBadBilling : Inputs :=
  ⟨[], [⟨"5", "BlueCross"⟩], [], [], [vrow "100" "99" "7" "10" "5" "abc"], []⟩

/-- `inpFull` with the billing_amount of the one visits row changed. -/
def inpChangedBilling : Inputs :=
  ⟨[⟨"1", "General", "CA"⟩], [⟨"5", "BlueCross"⟩],
   [⟨"7", "Dr Smith", "1980-02-02", "2005", "UCLA", "100000.5"⟩],
   [⟨"10", "Pat Doe", "F", "1990-03-03", "O+"⟩],
   [vrow "100" "1" "7" "10" "5" "999.0"],
   [⟨"200", "great care", "Pat Doe", "Dr Smith", "General", "100"⟩]⟩

/-- A store already holding two Hospital nodes with the same id, which
makes creating the uniqueness constraint fail. -/
def dupStore : Store :=
  ⟨2, [⟨0, Label.Hospital, [("id", Val.VInt 1), ("name", Val.VStr "General"),
        ("state_name", Val.VStr "CA")]⟩,
      ⟨1, Label.Hospital, [("id", Val.VInt 1), ("name", Val.VStr "Mercy"),
        ("state_name", Val.VStr "CA")]⟩], [], []⟩

/-- Store states per attempt: the first attempt sees `dupStore` and
fails, later attempts see the empty store. -/
def storesC2 : Nat → Store := fun n => if n = 0 then dupStore else emptyStore

/-- Six empty files. -/
def inpEmpty : Inputs := ⟨[], [], [], [], [], []⟩

/-! Claim C1. -/

/-- C1 (counterexample): loading a visits row whose hospital-side (and
every other) endpoint node was never loaded completes successfully and
creates no edge at all: the row is silently skipped, and no
referential-integrity error is raised (none even exists in the code). -/
theorem c1_counterexample :
    exOk (load inpMissingEndpoints emptyStore) = true ∧
      okEdges (load inpMissingEndpoints emptyStore) = [] := by
  constructor <;> rfl

/-- C1 (amended): a relationship statement one of whose endpoint MATCH
clauses finds no node (for any of the six relationship types) completes
silently without creating an edge and without any error: the store is
returned unchanged. -/
theorem relMerge_absent_endpoint_skips (s : Store) (d : RelSpec)
    (h : matchNodes s d.srcLabel d.srcId = [] ∨ matchNodes s d.dstLabel d.dstId = []) :
    relMerge s d = s := by
  have hp : matchPairs s d = [] := by
    unfold matchPairs
    rcases h with h | h
    · rw [h]
      rfl
    · rw [h]
      exact crossPairs_nil_right _
  unfold relMerge
  rw [hp]
  rfl

/-- C1 (witness): the AT statement for a visits row on the empty store
(no Visit, no Hospital node) returns the store unchanged. -/
theorem c1_witness :
    relMerge emptyStore (atSpec (vrow "100" "99" "7" "10" "5" "300.5")) = emptyStore :=
  relMerge_absent_endpoint_skips emptyStore _ (Or.inl rfl)

/-! Claim C2. -/

/-- C2 (counterexample): the first attempt fails with a
constraint-creation error -- a class the spec says terminates the run
without retry -- yet the decorated entry point retries and succeeds on
the second attempt. -/
theorem c2_counterexample :
    (runAttempt inpEmpty (storesC2 0)).2 = .error (.constraintCreateFailed Label.Hospital) ∧
      exOk (load_hospital_graph_from_csv storesC2 inpEmpty) = true := by
  constructor <;> rfl

/-- C2 (amended): the retry decorator is uniform in the error: any
failing attempt, whatever its error, is followed by a fresh attempt
while the 100-attempt budget remains, so a run whose first attempt
raises any error and whose second attempt succeeds succeeds overall; no
error class terminates the run without retry. -/
theorem retry_uniform (stores : Nat → Store) (inp : Inputs) (e : LoadError)
    (h0 : (runAttempt inp (stores 0)).2 = .error e)
    (h1 : exOk (runAttempt inp (stores 1)).2 = true) :
    exOk (load_hospital_graph_from_csv stores inp) = true := by
  show exOk (retryGo (fun n => (runAttempt inp (stores n)).2) 0 (98 + 1)) = true
  rw [retryGo_skip (fun n => (runAttempt inp (stores n)).2) h0 98]
  cases hres : (runAttempt inp (stores 1)).2 with
  | error e2 =>
    rw [hres] at h1
    exact absurd h1 (by simp [exOk])
  | ok t =>
    rw [retryGo_ok hres 98]
    rfl

/-- C2 (witness): the uniform-retry theorem applied to the concrete
failing-then-succeeding scenario. -/
theorem c2_witness : exOk (load_hospital_graph_from_csv storesC2 inpEmpty) = true :=
  retry_uniform storesC2 inpEmpty (.constraintCreateFailed Label.Hospital) rfl rfl

/-! Claim C5. -/

/-- C5: in every run the executed step boundaries respect the strict
order -- all constraint declarations before any node load, all node
loads before any relationship load, and each relationship load only
after the node loads of both its endpoint labels -- and a successful run
executes exactly the full eighteen-step sequence. -/
theorem load_step_ordering (inp : Inputs) (s : Store) :
    isOrdered (loadRun inp s).1 = true ∧
      (exOk (loadRun inp s).2 = true → (loadRun inp s).1 = fullTrace) := by
  obtain ⟨⟨rest, hrest⟩, hok⟩ := stepRun_fold (phases inp) [] (.ok s)
  have hmap : (phases inp).map Prod.fst = fullTrace := rfl
  constructor
  · apply fullTrace_inits_ordered
    rw [List.mem_inits]
    exact ⟨rest, by simpa [hmap] using hrest⟩
  · intro h2
    calc (loadRun inp s).1 = [] ++ (phases inp).map Prod.fst := hok h2
    _ = fullTrace := by simp [hmap]

/-- C5 (witness): the ordering theorem at a concrete run. -/
theorem c5_witness :
    isOrdered (loadRun inpFull emptyStore).1 = true ∧
      (exOk (loadRun inpFull emptyStore).2 = true →
        (loadRun inpFull emptyStore).1 = fullTrace) :=
  load_step_ordering inpFull emptyStore

/-! Claim C6. -/

/-- C6 (counterexample): a failing attempt is an exit path on which the
driver is acquired but never closed -- `driver.close()` is only reached
on the success path, since the function has no `try`/`finally`. -/
theorem c6_counterexample :
    (runAttempt inpDupHospital emptyStore).1 = [DriverEvent.acquire] ∧
      exOk (runAttempt inpDupHospital emptyStore).2 = false := by
  constructor <;> rfl

/-- C6 (amended): each attempt acquires the driver exactly once, but
releases it exactly on the success path: after an error the close on the
function's last line is never executed. -/
theorem driver_once_close_iff (inp : Inputs) (s : Store) :
    (runAttempt inp s).1.count DriverEvent.acquire = 1 ∧
      ((runAttempt inp s).1.count DriverEvent.close = 1 ↔
        exOk (runAttempt inp s).2 = true) := by
  unfold runAttempt
  cases load inp s with
  | ok t =>
    refine ⟨rfl, ?_⟩
    simp [exOk]
  | error e =>
    refine ⟨rfl, ?_⟩
    simp [exOk]

/-- C6 (witness): the amended statement at a concrete failing run. -/
theorem c6_witness :
    (runAttempt inpDupHospital emptyStore).1.count DriverEvent.acquire = 1 ∧
      ((runAttempt inpDupHospital emptyStore).1.count DriverEvent.close = 1 ↔
        exOk (runAttempt inpDupHospital emptyStore).2 = true) :=
  driver_once_close_iff inpDupHospital emptyStore

/-! Claim C3 (witness; its theorem, proved above, is the idempotence of
the load). -/

/-- C3 (witness): re-running the load of `inpFull` against the store the
first run produced returns that store unchanged. -/
theorem c3_witness :
    load inpFull (okStore (load inpFull emptyStore)) =
      .ok (okStore (load inpFull emptyStore)) :=
  (load_idempotent inpFull emptyStore (okStore (load inpFull emptyStore)) rfl).1

/-! Claim C4. -/

/-- C4: an edge already stored before a run (for instance a COVERED_BY
edge with its service_date and billing_amount fixed at creation) is
still present, bit-for-bit unchanged, after any later successful run,
and that run adds no other edge with the same source, target and type:
ON CREATE SET attributes are never overwritten, even when a later row
carries the same keys with a different billing_amount. -/
theorem edge_create_only (inp : Inputs) (s S : Store) (e e2 : Edge)
    (h : load inp s = .ok S) (he : e ∈ s.edges) (he2 : e2 ∈ S.edges)
    (hk : e2.src = e.src ∧ e2.dst = e.dst ∧ e2.typ = e.typ) :
    e ∈ S.edges ∧ e2 ∈ s.edges := by
  refine ⟨(load_ok_le h).2.1 e he, ?_⟩
  obtain ⟨u, _, _, horigin⟩ := load_edge_origin h
  rcases horigin e2 he2 with hin | ⟨hne, _⟩
  · exact hin
  · exfalso
    have hex : edgeExists s.edges e2.src e2.dst e2.typ = true :=
      edgeExists_iff.mpr ⟨e, he, hk.1.symm, hk.2.1.symm, hk.2.2.symm⟩
    rw [hex] at hne
    exact Bool.noConfusion hne

/-- C4 (witness): the COVERED_BY edge created by the first `inpFull`
run, with billing_amount 300.5, survives a re-run whose visits row
carries billing_amount 999.0. -/
theorem c4_witness :
    (⟨4, 1, RelType.COVERED_BY, [("service_date", Val.VStr "2023-01-05"),
      ("billing_amount", Val.VFloat "300.5")]⟩ : Edge) ∈
      (okStore (load inpChangedBilling (okStore (load inpFull emptyStore)))).edges :=
  (edge_create_only inpChangedBilling (okStore (load inpFull emptyStore))
    (okStore (load inpChangedBilling (okStore (load inpFull emptyStore))))
    ⟨4, 1, RelType.COVERED_BY, [("service_date", Val.VStr "2023-01-05"),
      ("billing_amount", Val.VFloat "300.5")]⟩
    ⟨4, 1, RelType.COVERED_BY, [("service_date", Val.VStr "2023-01-05"),
      ("billing_amount", Val.VFloat "300.5")]⟩
    rfl (by decide) (by decide) ⟨rfl, rfl, rfl⟩).1

/-! Claim C7. -/

/-- C7 (counterexample): loading two hospital rows with the same id and
different names does not produce a second Hospital node -- the whole run
aborts with a constraint-violation error instead. -/
theorem c7_counterexample :
    load inpDupHospital emptyStore =
      .error (.constraintViolation Label.Hospital (Val.VInt 1)) := rfl

/-- C7 (amended): all listed properties are part of the node merge
pattern, so a later hospital row with the same id but differing non-key
properties matches no existing node; the attempted create then violates
the id-uniqueness constraint, and the statement fails with a
constraint-violation error -- it neither updates the existing node nor
creates a second one. -/
theorem merge_all_props_conflict (s : Store) (r2 : HospitalRow) (i : Int)
    (hcon : s.constraints.contains Label.Hospital = true)
    (hid2 : toIntV r2.hospital_id = Val.VInt i)
    (hnomatch : ∀ n ∈ s.nodes,
      ¬(n.label = Label.Hospital ∧ propsMatch (hospitalProps r2) n.props = true))
    (hdup : ∃ n ∈ s.nodes, n.label = Label.Hospital ∧
      getProp n.props "id" = some (Val.VInt i)) :
    mergeNode s Label.Hospital (hospitalProps r2) =
      .error (.constraintViolation Label.Hospital (Val.VInt i)) := by
  apply mergeNode_conflict
  · unfold hospitalProps hasNull
    simp [hid2]
  · unfold hospitalProps
    simp [getProp, hid2]
  · exact hcon
  · exact hnomatch
  · exact hdup

/-- C7 (witness): merging the second duplicate hospital row against the
store holding the first one raises the constraint violation. -/
theorem c7_witness :
    mergeNode (okStore (load ⟨[⟨"1", "General", "CA"⟩], [], [], [], [], []⟩ emptyStore))
      Label.Hospital (hospitalProps ⟨"1", "Mercy", "CA"⟩) =
      .error (.constraintViolation Label.Hospital (Val.VInt 1)) :=
  merge_all_props_conflict _ ⟨"1", "Mercy", "CA"⟩ 1 (by decide) (by decide)
    (by decide) (by decide)

/-! Claim C8. -/

/-- C8 (counterexample): a visits row whose billing_amount is not a
number loads successfully: the COVERED_BY edge is created with its
billing_amount silently missing (stored as no property at all), not
rejected with a fatal data error. -/
theorem c8_counterexample :
    exOk (load inpBadBilling emptyStore) = true ∧
      (okEdges (load inpBadBilling emptyStore)).map
        (fun e => (e.typ, getProp e.props "billing_amount",
          getProp e.props "service_date")) =
      [(RelType.COVERED_BY, none, some (Val.VStr "2023-01-05"))] := by
  constructor <;> rfl

/-- C8 (amended): numeric coercion failures behave differently by
position.  A salary string `toFloat` cannot coerce makes the Physician
MERGE pattern contain `null`, so the statement fails with a
null-merge-property error; but a billing_amount string `toFloat` cannot
coerce, sitting in the ON CREATE SET clause, is silently dropped: the
newly created COVERED_BY edge simply has no billing_amount property
(while its service_date is stored). -/
theorem coercion_failures (s : Store) (r : PhysicianRow) (r2 : VisitRow) (e : Edge)
    (hsal : isFloatStr r.salary = false)
    (hbill : isFloatStr r2.billing_amount = false)
    (he : e ∈ (relMerge s (coveredBySpec r2)).edges) (hnew : e ∉ s.edges) :
    mergeNode s Label.Physician (physicianProps r) =
      .error (.nullMergeProp Label.Physician) ∧
      getProp e.props "billing_amount" = none ∧
      getProp e.props "service_date" = some (Val.VStr r2.discharge_date) := by
  have hprops : getProp e.props "billing_amount" = none ∧
      getProp e.props "service_date" = some (Val.VStr r2.discharge_date) := by
    rcases relMerge_new he with hin | ⟨_, _, hpr, _⟩
    · exact absurd hin hnew
    · rw [hpr]
      unfold coveredBySpec dropNull toFloatV
      rw [hbill]
      simp [getProp]
  refine ⟨?_, hprops.1, hprops.2⟩
  have hnull : hasNull (physicianProps r) = true := by
    unfold physicianProps hasNull toFloatV
    rw [hsal]
    simp
  unfold mergeNode
  rw [hnull]
  simp

/-- A store holding one Visit node with id 100 and one Payer node with
id 5 and no edges. -/
def storeVisitPayer : Store :=
  ⟨2, [⟨0, Label.Visit, [("id", Val.VInt 100)]⟩,
      ⟨1, Label.Payer, [("id", Val.VInt 5)]⟩], [], []⟩

/-- C8 (witness): the two coercion behaviors at concrete data. -/
theorem c8_witness :
    mergeNode storeVisitPayer Label.Physician
      (physicianProps ⟨"7", "Dr Smith", "1980-02-02", "2005", "UCLA", "notanumber"⟩) =
      .error (.nullMergeProp Label.Physician) ∧
      getProp (⟨0, 1, RelType.COVERED_BY,
        [("service_date", Val.VStr "2023-01-05")]⟩ : Edge).props "billing_amount" = none ∧
      getProp (⟨0, 1, RelType.COVERED_BY,
        [("service_date", Val.VStr "2023-01-05")]⟩ : Edge).props "service_date" =
        some (Val.VStr "2023-01-05") :=
  coercion_failures storeVisitPayer ⟨"7", "Dr Smith", "1980-02-02", "2005", "UCLA",
    "notanumber"⟩ (vrow "100" "99" "7" "10" "5" "abc") _ rfl rfl (by decide) (by decide)

/-! Claim C9. -/

/-- C9: every COVERED_BY edge a run creates stores, as its service_date
attribute, the `discharge_date` column of the visits row that produced
it -- the script passes `row['discharge_date']` as `$service_date`;
there is no dedicated service-date source column. -/
theorem coveredBy_service_date (inp : Inputs) (s S : Store) (e : Edge)
    (h : load inp s = .ok S) (he : e ∈ S.edges) (hnew : e ∉ s.edges)
    (ht : e.typ = RelType.COVERED_BY) :
    ∃ r ∈ inp.visits,
      getProp e.props "service_date" = some (Val.VStr r.discharge_date) := by
  obtain ⟨u, _, _, horigin⟩ := load_edge_origin h
  rcases horigin e he with hin | ⟨_, hcase⟩
  · exact absurd hin hnew
  rcases hcase with ⟨r, _, _, htyp, _⟩ | ⟨r, _, _, htyp, _⟩ | ⟨r, _, _, htyp, _⟩ |
    ⟨r, hr, _, _, hpr⟩ | ⟨r, _, _, htyp, _⟩ | ⟨r, _, _, htyp, _⟩
  · rw [ht] at htyp
    exact absurd htyp (by simp [atSpec])
  · rw [ht] at htyp
    exact absurd htyp (by simp [writesSpec])
  · rw [ht] at htyp
    exact absurd htyp (by simp [treatsSpec])
  · refine ⟨r, hr, ?_⟩
    rw [hpr]
    exact getProp_dropNull_coveredBy r
  · rw [ht] at htyp
    exact absurd htyp (by simp [hasSpec])
  · rw [ht] at htyp
    exact absurd htyp (by simp [employsSpec])

/-- C9 (witness): the COVERED_BY edge of the `inpFull` run carries the
visit row's discharge_date as its service_date. -/
theorem c9_witness :
    getProp (⟨4, 1, RelType.COVERED_BY, [("service_date", Val.VStr "2023-01-05"),
      ("billing_amount", Val.VFloat "300.5")]⟩ : Edge).props "service_date" =
      some (Val.VStr "2023-01-05") := by
  obtain ⟨r, hr, hp⟩ := coveredBy_service_date inpFull emptyStore
    (okStore (load inpFull emptyStore))
    ⟨4, 1, RelType.COVERED_BY, [("service_date", Val.VStr "2023-01-05"),
      ("billing_amount", Val.VFloat "300.5")]⟩
    rfl (by decide) (by decide) rfl
  replace hr : r = vrow "100" "1" "7" "10" "5" "300.5" := by
    simpa [inpFull] using hr
  subst hr
  exact hp

/-! Claim C10. -/

/-- C10: starting from the empty store, an EMPLOYS edge between a
Hospital node and a Physician node exists exactly when some visits-file
row carries their (hospital_id, physician_id) pair, and a COVERED_BY
edge between a Visit node and a Payer node exactly when some visits-file
row carries their (visit_id, payer_id) pair: both relationship types are
derived from the visits file (of the six, only WRITES reads another
file, the reviews file). -/
theorem employs_coveredBy_from_visits (inp : Inputs) (S : Store) (a b : Node)
    (h : load inp emptyStore = .ok S) (ha : a ∈ S.nodes) (hb : b ∈ S.nodes) :
    (a.label = Label.Hospital → b.label = Label.Physician →
      (edgeExists S.edges a.nid b.nid RelType.EMPLOYS = true ↔
        ∃ r ∈ inp.visits, getProp a.props "id" = some (toIntV r.hospital_id) ∧
          getProp b.props "id" = some (toIntV r.physician_id))) ∧
    (a.label = Label.Visit → b.label = Label.Payer →
      (edgeExists S.edges a.nid b.nid RelType.COVERED_BY = true ↔
        ∃ r ∈ inp.visits, getProp a.props "id" = some (toIntV r.visit_id) ∧
          getProp b.props "id" = some (toIntV r.payer_id))) := by
  have hwf : NodesWF S := load_wf h nodesWF_empty
  obtain ⟨u, hun, _, _, _, _, hcovCB, _, hcovEM⟩ := load_rel_covered h
  obtain ⟨u2, hu2n, _, horigin⟩ := load_edge_origin h
  constructor
  · intro hla hlb
    constructor
    · intro hex
      obtain ⟨e, he, hes, hed, het⟩ := edgeExists_iff.mp hex
      rcases horigin e he with hin | ⟨_, hcase⟩
      · exact absurd hin (List.not_mem_nil e)
      rcases hcase with ⟨r, _, _, htyp, _⟩ | ⟨r, _, _, htyp, _⟩ | ⟨r, _, _, htyp, _⟩ |
        ⟨r, _, _, htyp, _⟩ | ⟨r, _, _, htyp, _⟩ | ⟨r, hr, hp, _, _⟩
      · rw [het] at htyp
        exact absurd htyp (by simp [atSpec])
      · rw [het] at htyp
        exact absurd htyp (by simp [writesSpec])
      · rw [het] at htyp
        exact absurd htyp (by simp [treatsSpec])
      · rw [het] at htyp
        exact absurd htyp (by simp [coveredBySpec])
      · rw [het] at htyp
        exact absurd htyp (by simp [hasSpec])
      · rw [mem_matchPairs] at hp
        obtain ⟨a2, ha2, b2, hb2, hpe⟩ := hp
        rw [Prod.mk.injEq] at hpe
        rw [mem_matchNodes] at ha2 hb2
        have ha2S : a2 ∈ S.nodes := by rw [← hu2n]; exact ha2.1
        have hb2S : b2 ∈ S.nodes := by rw [← hu2n]; exact hb2.1
        have haa : a2 = a := nid_inj hwf ha2S ha (hpe.1.symm.trans hes)
        have hbb : b2 = b := nid_inj hwf hb2S hb (hpe.2.symm.trans hed)
        refine ⟨r, hr, ?_, ?_⟩
        · rw [← haa]
          exact ha2.2.2.1
        · rw [← hbb]
          exact hb2.2.2.1
    · rintro ⟨r, hr, hia, hib⟩
      have hanull : toIntV r.hospital_id ≠ Val.VNull :=
        getProp_ne_null a.props (hwf.1 a ha).1 hia
      have hbnull : toIntV r.physician_id ≠ Val.VNull :=
        getProp_ne_null b.props (hwf.1 b hb).1 hib
      have hpair : (a.nid, b.nid) ∈ matchPairs u (employsSpec r) := by
        rw [mem_matchPairs]
        refine ⟨a, ?_, b, ?_, rfl⟩
        · rw [mem_matchNodes]
          exact ⟨by rw [hun]; exact ha, hla, hia, hanull⟩
        · rw [mem_matchNodes]
          exact ⟨by rw [hun]; exact hb, hlb, hib, hbnull⟩
      exact hcovEM r hr (a.nid, b.nid) hpair
  · intro hla hlb
    constructor
    · intro hex
      obtain ⟨e, he, hes, hed, het⟩ := edgeExists_iff.mp hex
      rcases horigin e he with hin | ⟨_, hcase⟩
      · exact absurd hin (List.not_mem_nil e)
      rcases hcase with ⟨r, _, _, htyp, _⟩ | ⟨r, _, _, htyp, _⟩ | ⟨r, _, _, htyp, _⟩ |
        ⟨r, hr, hp, _, _⟩ | ⟨r, _, _, htyp, _⟩ | ⟨r, _, _, htyp, _⟩
      · rw [het] at htyp
        exact absurd htyp (by simp [atSpec])
      · rw [het] at htyp
        exact absurd htyp (by simp [writesSpec])
      · rw [het] at htyp
        exact absurd htyp (by simp [treatsSpec])
      · rw [mem_matchPairs] at hp
        obtain ⟨a2, ha2, b2, hb2, hpe⟩ := hp
        rw [Prod.mk.injEq] at hpe
        rw [mem_matchNodes] at ha2 hb2
        have ha2S : a2 ∈ S.nodes := by rw [← hu2n]; exact ha2.1
        have hb2S : b2 ∈ S.nodes := by rw [← hu2n]; exact hb2.1
        have haa : a2 = a := nid_inj hwf ha2S ha (hpe.1.symm.trans hes)
        have hbb : b2 = b := nid_inj hwf hb2S hb (hpe.2.symm.trans hed)
        refine ⟨r, hr, ?_, ?_⟩
        · rw [← haa]
          exact ha2.2.2.1
        · rw [← hbb]
          exact hb2.2.2.1
      · rw [het] at htyp
        exact absurd htyp (by simp [hasSpec])
      · rw [het] at htyp
        exact absurd htyp (by simp [employsSpec])
    · rintro ⟨r, hr, hia, hib⟩
      have hanull : toIntV r.visit_id ≠ Val.VNull :=
        getProp_ne_null a.props (hwf.1 a ha).1 hia
      have hbnull : toIntV r.payer_id ≠ Val.VNull :=
        getProp_ne_null b.props (hwf.1 b hb).1 hib
      have hpair : (a.nid, b.nid) ∈ matchPairs u (coveredBySpec r) := by
        rw [mem_matchPairs]
        refine ⟨a, ?_, b, ?_, rfl⟩
        · rw [mem_matchNodes]
          exact ⟨by rw [hun]; exact ha, hla, hia, hanull⟩
        · rw [mem_matchNodes]
          exact ⟨by rw [hun]; exact hb, hlb, hib, hbnull⟩
      exact hcovCB r hr (a.nid, b.nid) hpair

/-- C10 (witness): in the `inpFull` run the EMPLOYS edge between the
Hospital node (internal id 0) and the Physician node (internal id 2)
exists because the one visits row carries the pair (1, 7). -/
theorem c10_witness :
    edgeExists (okStore (load inpFull emptyStore)).edges 0 2 RelType.EMPLOYS = true :=
  ((employs_coveredBy_from_visits inpFull (okStore (load inpFull emptyStore))
      ⟨0, Label.Hospital, hospitalProps ⟨"1", "General", "CA"⟩⟩
      ⟨2, Label.Physician,
        physicianProps ⟨"7", "Dr Smith", "1980-02-02", "2005", "UCLA", "100000.5"⟩⟩
      rfl (by decide) (by decide)).1 rfl rfl).mpr
    ⟨vrow "100" "1" "7" "10" "5" "300.5", by decide, by decide, by decide⟩

end HospitalETL
